import Mathlib

/-!
# Verification of the streaming archive-extraction engine

Shallow embedding of the Tar/Zip extraction engine of `tdewolff-minify`
(`source/minifyDownloader/tar-extract-stream.js`, `chunk-buffer.js`,
`generic-readable.js`).

Bytes are modelled as `Nat` (values < 256 at use sites), Node.js `Buffer`s as
`List Nat`, and the asynchronous `ChunkBuffer` ("Staging Buffer") as a pure
state: an operation that would suspend awaiting more data is modelled as
`none` / a timeout error.  The inflater (`zlib.createInflateRaw`) is modelled
abstractly by the length `L` of the raw-deflate stream it recognises:
`inflate.bytesWritten` after feeding `fed` total bytes equals `min fed L`,
and its `end` event has fired exactly when `0 < L ∧ L ≤ fed` (a raw deflate
stream is nonempty and the inflater stops consuming at its final block).
-/

/-- Total length of a list of chunks. -/
def chunksLen (cs : List (List Nat)) : Nat := (cs.map List.length).sum

/-- JS `TypedArray.subarray(begin)`: a negative `begin` counts from the end,
and the index is clamped into `[0, length]`. -/
def jsSubarrayFrom (c : List Nat) (start : Int) : List Nat :=
  let len : Int := c.length
  let b := if start < 0 then max (len + start) 0 else min start len
  c.drop b.toNat

/-- Node.js `Buffer.concat(chunks, totalLength)`: the concatenation, truncated
or zero-filled to exactly `totalLength` bytes. -/
def bufConcat (cs : List (List Nat)) (total : Nat) : List Nat :=
  (cs.flatten).take total ++ List.replicate (total - (cs.flatten).length) 0

/-- State of a `ChunkBuffer` (the Staging Buffer): the queued chunks plus the
running `_size` counter that the JS code maintains alongside them. -/
structure CB where
  chunks : List (List Nat)
  bsize : Nat
deriving Repr, DecidableEq

/-- The freshly constructed buffer: `_chunks = []`, `_size = 0`. -/
def cbEmpty : CB := ⟨[], 0⟩

/-- All bytes currently buffered, in order. -/
def CB.flatten (b : CB) : List Nat := b.chunks.flatten

/-- The `_size` counter agrees with the actual buffered bytes (the data-model
invariant of the Staging Buffer). -/
def CB.wf (b : CB) : Prop := b.bsize = b.flatten.length

instance (b : CB) : Decidable b.wf :=
  inferInstanceAs (Decidable (b.bsize = b.flatten.length))

/-- The `ChunkBuffer.push(...chunks)`: append the chunks and add their lengths to
`_size` (the waiter wake-up has no effect on the buffered state). -/
def CB.push (b : CB) (cs : List (List Nat)) : CB :=
  ⟨b.chunks ++ cs, b.bsize + chunksLen cs⟩

/-- The `ChunkBuffer.giveBack(chunk, bytesAtEndToGiveBack)`:
`leftovers = chunk.subarray(bytesAtEndToGiveBack ? chunk.length - bytesAtEndToGiveBack : 0)`,
then `_chunks = [leftovers]; _size = leftovers.length`.  Note that the code
*replaces* the queued chunks with `[leftovers]`; it does not prepend. -/
def CB.giveBack (_b : CB) (chunk : List Nat) (bytesAtEnd : Nat) : CB :=
  let leftovers :=
    if bytesAtEnd = 0 then chunk
    else jsSubarrayFrom chunk ((chunk.length : Int) - (bytesAtEnd : Int))
  ⟨[leftovers], leftovers.length⟩

/-- The `ChunkBuffer.consume(sizeWanted)` as a pure state transition.  `none`
means the call would suspend waiting for more data (and time out if none
arrives).  Mirrors the JS branch structure:
if `sizeWanted && sizeWanted != _size` then (split if `_size > sizeWanted`,
else wait); else if `_size` then take everything; else wait. -/
def CB.consume (b : CB) (sizeWanted : Nat) : Option (List Nat × CB) :=
  if sizeWanted ≠ 0 ∧ sizeWanted ≠ b.bsize then
    if b.bsize > sizeWanted then
      let buf := bufConcat b.chunks b.bsize
      let leftovers := buf.drop sizeWanted
      some (buf.take sizeWanted, ⟨[leftovers], leftovers.length⟩)
    else none
  else if b.bsize ≠ 0 then
    some (bufConcat b.chunks b.bsize, ⟨[], 0⟩)
  else none

/-- A maximal sequence of `consume` calls: perform the requests in order,
stopping at the first one that would have to wait.  Returns the consumed
buffers and the final buffer state. -/
def runConsumes (b : CB) : List Nat → (List (List Nat) × CB)
  | [] => ([], b)
  | n :: rest =>
    match b.consume n with
    | none => ([], b)
    | some (out, b') =>
      let r := runConsumes b' rest
      (out :: r.1, r.2)

theorem chunksLen_eq_length_join (cs : List (List Nat)) :
    chunksLen cs = cs.flatten.length := by
  simp [chunksLen, List.length_flatten]

theorem CB.push_wf (b : CB) (cs : List (List Nat)) (h : b.wf) : (b.push cs).wf := by
  simp [CB.wf, CB.push, CB.flatten, List.flatten_append, chunksLen_eq_length_join] at h ⊢
  omega

theorem CB.push_flatten (b : CB) (cs : List (List Nat)) :
    (b.push cs).flatten = b.flatten ++ cs.flatten := by
  simp [CB.push, CB.flatten, List.flatten_append]

theorem bufConcat_of_wf (b : CB) (h : b.wf) : bufConcat b.chunks b.bsize = b.flatten := by
  unfold CB.wf at h
  simp [bufConcat, CB.flatten, h]

/-- The `consume` returns a prefix of the buffered bytes and leaves the rest,
preserving the size invariant. -/
theorem CB.consume_spec (b : CB) (n : Nat) (out : List Nat) (b' : CB)
    (hwf : b.wf) (h : b.consume n = some (out, b')) :
    out ++ b'.flatten = b.flatten ∧ b'.wf := by
  unfold CB.consume at h
  by_cases h1 : n ≠ 0 ∧ n ≠ b.bsize
  · rw [if_pos h1] at h
    by_cases h2 : b.bsize > n
    · rw [if_pos h2] at h
      simp only [Option.some.injEq, Prod.mk.injEq] at h
      obtain ⟨hout, hb'⟩ := h
      subst hout; subst hb'
      rw [bufConcat_of_wf b hwf]
      constructor
      · simp [CB.flatten]
      · simp [CB.wf, CB.flatten]
    · rw [if_neg h2] at h; exact absurd h (by simp)
  · rw [if_neg h1] at h
    by_cases h3 : b.bsize ≠ 0
    · rw [if_pos h3] at h
      simp only [Option.some.injEq, Prod.mk.injEq] at h
      obtain ⟨hout, hb'⟩ := h
      subst hout; subst hb'
      rw [bufConcat_of_wf b hwf]
      constructor
      · simp [CB.flatten]
      · simp [CB.wf, CB.flatten]
    · rw [if_neg h3] at h; exact absurd h (by simp)

/-- Conservation across a maximal consume sequence, for any well-formed start
state: consumed bytes plus bytes left buffered equal the bytes that were
there. -/
theorem runConsumes_conservation (reqs : List Nat) (b : CB) (hwf : b.wf) :
    (runConsumes b reqs).1.flatten ++ (runConsumes b reqs).2.flatten = b.flatten ∧
      (runConsumes b reqs).2.wf := by
  induction reqs generalizing b with
  | nil => exact ⟨by simp [runConsumes], hwf⟩
  | cons n rest ih =>
    unfold runConsumes
    cases hc : b.consume n with
    | none => exact ⟨by simp, hwf⟩
    | some r =>
      obtain ⟨out, b'⟩ := r
      obtain ⟨hflat, hwf'⟩ := CB.consume_spec b n out b' hwf hc
      obtain ⟨ih1, ih2⟩ := ih b' hwf'
      refine ⟨?_, ih2⟩
      simp only [List.flatten_cons]
      rw [List.append_assoc, ih1, hflat]

/-- Pushing a sequence of chunk groups into a fresh buffer. -/
def pushAll (groups : List (List (List Nat))) : CB :=
  groups.foldl (fun b g => b.push g) cbEmpty

theorem pushAll_wf_flatten (groups : List (List (List Nat))) :
    (pushAll groups).wf ∧ (pushAll groups).flatten = (groups.map List.flatten).flatten := by
  suffices h : ∀ b : CB, b.wf →
      (groups.foldl (fun b g => b.push g) b).wf ∧
      (groups.foldl (fun b g => b.push g) b).flatten = b.flatten ++ (groups.map List.flatten).flatten by
    have := h cbEmpty (by simp [CB.wf, cbEmpty, CB.flatten])
    simpa [pushAll, cbEmpty, CB.flatten] using this
  induction groups with
  | nil => intro b hb; exact ⟨hb, by simp⟩
  | cons g rest ih =>
    intro b hb
    have h1 := CB.push_wf b g hb
    obtain ⟨ih1, ih2⟩ := ih (b.push g) h1
    refine ⟨ih1, ?_⟩
    simp only [List.foldl_cons] at *
    rw [ih2, CB.push_flatten]
    simp

/-! ## Zip decoder (`ZipExtractStream`)

The inflater is represented by the length `L` of the raw-deflate stream in
the input: after `fed` total bytes have been written to it,
`inflate.bytesWritten = min fed L`; its `end` event has fired exactly when
`0 < L ∧ L ≤ fed`. -/

inductive ZErr where
  | timeout
deriving Repr, DecidableEq

/-- The `inflate.bytesWritten` after `fed` bytes have been written in total. -/
def inflateBW (L fed : Nat) : Nat := min fed L

/-- Whether the inflater's `end` event has fired after `fed` total bytes. -/
def inflateEnded (L fed : Nat) : Bool := decide (0 < L) && decide (L ≤ fed)

/-- The unknown-size loop of `ZipExtractStream._pipeFileStream`
(`while (!done) { chunk = await consume(0,undefined,true); inflate.write(chunk, ...) }`):
each iteration takes the next chunk delivered by `consume(0)` (the successive
elements of `sched`; an empty schedule means the source stalled and the
consume throws), writes it to the inflater, adds its length to
`totalWritten`, and if `totalWritten > inflate.bytesWritten` calls
`giveBack(chunk, totalWritten - inflate.bytesWritten)` and stops.
Returns `(totalWritten, chunks written, buffer state left by giveBack)`;
`consume(0)` empties the staging buffer before each write, and `giveBack`
overwrites the chunk queue outright, so the receiver state is immaterial. -/
def zipUnknownLoop (L fedSoFar : Nat) : List (List Nat) → Except ZErr (Nat × List (List Nat) × CB)
  | [] => .error .timeout
  | c :: rest =>
    let fed := fedSoFar + c.length
    if inflateBW L fed < fed then
      .ok (fed, [c], CB.giveBack cbEmpty c (fed - L))
    else
      match zipUnknownLoop L fed rest with
      | .error e => .error e
      | .ok (f, cs, gb) => .ok (f, c :: cs, gb)

inductive ZipOutcome where
  | finished (bytesWritten : Nat)
  | hangs
deriving Repr, DecidableEq

/-- Observable result of `ZipExtractStream._pipeFileStream`. -/
structure ZipPipeRes where
  outcome : ZipOutcome
  fed : List (List Nat)
  gaveBack : Option CB
deriving Repr, DecidableEq

/-- The `ZipExtractStream._pipeFileStream(fileStream, compressedSize, ...)`:
only when `compressedSize == 0` does any code write source bytes to the
inflater (the known-size feeding code is commented out in the source); the
unknown-size loop runs inside `try { ... } catch (error) { log(...) }`, so a
thrown stall timeout is only logged; either way the function then does
`return await endPromise`, which resolves only once the inflater's `end`
event has fired — otherwise the decode suspends forever (`hangs`). -/
def zipPipeFileStream (compressedSize L : Nat) (sched : List (List Nat)) : ZipPipeRes :=
  if compressedSize = 0 then
    match zipUnknownLoop L 0 sched with
    | .ok (fed, cs, gb) =>
      { outcome := if inflateEnded L fed then .finished (inflateBW L fed) else .hangs
        fed := cs
        gaveBack := some gb }
    | .error _ =>
      { outcome := if inflateEnded L (chunksLen sched) then .finished (inflateBW L (chunksLen sched)) else .hangs
        fed := sched
        gaveBack := none }
  else
    { outcome := if inflateEnded L 0 then .finished (inflateBW L 0) else .hangs
      fed := []
      gaveBack := none }

/-- The `buffer.readUInt32BE`-style big-endian read of a byte list. -/
def readBE (bytes : List Nat) : Nat := bytes.foldl (fun a b => a * 256 + b) 0

/-- The `buffer.readUInt32LE`-style little-endian read of a byte list. -/
def readLE (bytes : List Nat) : Nat := bytes.foldr (fun b a => a * 256 + b) 0

structure DataDescriptor where
  crc32 : Nat
  compressedSize : Nat
  uncompressedSize : Nat
deriving Repr, DecidableEq

/-- The data-descriptor section of `ZipExtractStream._worker`
(`if (rawHeader.dataDescriptor) { ... }`): consume 16 bytes; if the first 4
(read big-endian) equal `dataDescriptorSignature = 0x504B0708`, the three
fields are the following 12 bytes (little-endian 32-bit each); otherwise they
are the first 12 bytes and `giveBack(buffer, 4)` re-queues the last 4.  The
descriptor-vs-actual comparisons only produce log lines, returned here as two
mismatch flags.  `none` means `consume` would wait for more data. -/
def zipReadDataDescriptor (b : CB) (dataDecompressed decompressedSize : Nat) :
    Option (DataDescriptor × Bool × Bool × CB) :=
  match b.consume 16 with
  | none => none
  | some (buffer, b') =>
    let optionalSignature := readBE (buffer.take 4)
    let p :=
      if optionalSignature = 0x504B0708 then
        (({ crc32 := readLE ((buffer.drop 4).take 4)
            compressedSize := readLE ((buffer.drop 8).take 4)
            uncompressedSize := readLE ((buffer.drop 12).take 4) } : DataDescriptor), b')
      else
        (({ crc32 := readLE (buffer.take 4)
            compressedSize := readLE ((buffer.drop 4).take 4)
            uncompressedSize := readLE ((buffer.drop 8).take 4) } : DataDescriptor),
         b'.giveBack buffer 4)
    some (p.1, decide (p.1.compressedSize ≠ dataDecompressed),
          decide (p.1.uncompressedSize ≠ decompressedSize), p.2)

/-! ## Helper lemmas -/

theorem chunksLen_cons (c : List Nat) (cs : List (List Nat)) :
    chunksLen (c :: cs) = c.length + chunksLen cs := by
  simp [chunksLen]

theorem jsSubarrayFrom_nonneg (c : List Nat) (k : Nat) :
    jsSubarrayFrom c (k : Int) = c.drop k := by
  simp only [jsSubarrayFrom]
  rw [if_neg (by omega)]
  rcases le_or_lt k c.length with h | h
  · rw [min_eq_left (by exact_mod_cast h), Int.toNat_natCast]
  · rw [min_eq_right (by exact_mod_cast h.le), Int.toNat_natCast,
      List.drop_of_length_le (Nat.le_refl _), List.drop_of_length_le (Nat.le_of_lt h)]

theorem CB.giveBack_pos (b : CB) (chunk : List Nat) (n : Nat)
    (h0 : 0 < n) (hle : n ≤ chunk.length) :
    b.giveBack chunk n = ⟨[chunk.drop (chunk.length - n)], n⟩ := by
  unfold CB.giveBack
  rw [if_neg (by omega)]
  have h1 : ((chunk.length : Int) - (n : Int)) = ((chunk.length - n : Nat) : Int) := by omega
  rw [h1, jsSubarrayFrom_nonneg]
  simp only [CB.mk.injEq, List.cons.injEq, and_true, true_and]
  rw [List.length_drop]
  omega

/-- Behaviour of the unknown-size decompression loop, relative to bytes
already fed (`a`): it stops at the first chunk whose write makes the
cumulative count exceed the decompressed-stream length `L`, and the buffer
it leaves via `giveBack` holds exactly the bytes beyond position `L`. -/
theorem zipUnknownLoop_spec (L : Nat) (sched : List (List Nat)) :
    ∀ a : Nat, a ≤ L → L < a + chunksLen sched →
    ∃ i fed gb,
      zipUnknownLoop L a sched = .ok (fed, sched.take (i+1), gb) ∧
      fed = a + chunksLen (sched.take (i+1)) ∧
      a + chunksLen (sched.take i) ≤ L ∧
      L < fed ∧
      gb.chunks = [(sched.flatten.take (fed - a)).drop (L - a)] ∧
      gb.bsize = fed - L := by
  induction sched with
  | nil =>
    intro a _ hlt
    simp [chunksLen] at hlt
    omega
  | cons c rest ih =>
    intro a ha hlt
    by_cases hstop : L < a + c.length
    · refine ⟨0, a + c.length, CB.giveBack cbEmpty c (a + c.length - L), ?_, ?_, ?_, ?_, ?_, ?_⟩
      · unfold zipUnknownLoop
        rw [if_pos (by simp [inflateBW]; omega)]
        simp [List.take_succ_cons]
      · simp [chunksLen]
      · simpa [chunksLen] using ha
      · exact hstop
      · rw [CB.giveBack_pos _ _ _ (by omega) (by omega)]
        show [List.drop (c.length - (a + c.length - L)) c] = _
        simp only [List.flatten_cons]
        have h4 : a + c.length - a = c.length := by omega
        have h5 : c.length - (a + c.length - L) = L - a := by omega
        rw [h4, h5, List.take_left]
      · rw [CB.giveBack_pos _ _ _ (by omega) (by omega)]
    · have hfed : a + c.length ≤ L := by omega
      have hlt' : L < (a + c.length) + chunksLen rest := by
        rw [chunksLen_cons] at hlt; omega
      obtain ⟨i, fed, gb, heq, hfed', hle', hlt'', hgb, hbs⟩ := ih (a + c.length) hfed hlt'
      refine ⟨i + 1, fed, gb, ?_, ?_, ?_, hlt'', ?_, hbs⟩
      · unfold zipUnknownLoop
        rw [if_neg (by simp [inflateBW]; omega), heq]
        simp [List.take_succ_cons]
      · rw [hfed']
        simp [List.take_succ_cons, chunksLen_cons]
        omega
      · simp only [List.take_succ_cons, chunksLen_cons]
        omega
      · rw [hgb]
        congr 1
        have h2 : fed - a = c.length + (fed - (a + c.length)) := by omega
        have h3 : L - a = c.length + (L - (a + c.length)) := by omega
        simp only [List.flatten_cons]
        rw [h2, h3, List.take_append, List.drop_append]

/-- C2. For an unknown-size Zip entry (general-purpose bit 3 set,
`compressedSize` recorded 0), the decoder writes source chunks to the
inflater one at a time; at the first write after which the cumulative bytes
fed strictly exceed the inflater's consumed count it stops, and `giveBack`
leaves the staging buffer holding exactly the surplus `fed − L` bytes — the
bytes of the source stream beyond the end of the compressed stream — at the
front, to be re-parsed as the next record. -/
theorem zip_unknown_size_giveback (L : Nat) (sched : List (List Nat))
    (hlt : L < chunksLen sched) :
    ∃ i fed gb,
      zipUnknownLoop L 0 sched = .ok (fed, sched.take (i+1), gb) ∧
      fed = chunksLen (sched.take (i+1)) ∧
      chunksLen (sched.take i) ≤ L ∧
      L < fed ∧
      gb.chunks = [(sched.flatten.take fed).drop L] ∧
      gb.bsize = fed - L := by
  have h := zipUnknownLoop_spec L sched 0 (Nat.zero_le _) (by omega)
  simpa using h

theorem zip_unknown_size_giveback_witness :
    2 < chunksLen [[9], [8, 7]] ∧
    ∃ i fed gb,
      zipUnknownLoop 2 0 [[9], [8, 7]] = .ok (fed, [[9], [8, 7]].take (i+1), gb) ∧
      fed = chunksLen ([[9], [8, 7]].take (i+1)) ∧
      chunksLen ([[9], [8, 7]].take i) ≤ 2 ∧
      2 < fed ∧
      gb.chunks = [([[9], [8, 7]].flatten.take fed).drop 2] ∧
      gb.bsize = fed - 2 :=
  ⟨by decide, zip_unknown_size_giveback 2 [[9], [8, 7]] (by decide)⟩

/-- C1 — what the code actually does is the opposite of the claim: for a
Zip entry with a nonzero declared `compressedSize`, `_pipeFileStream` feeds
*no* source bytes to the inflater at all (the known-size feeding code is
absent), and since the inflater's `end` event can then never fire, awaiting
the end promise suspends the decode forever. -/
theorem zip_known_size_feeds_nothing (compressedSize L : Nat) (sched : List (List Nat))
    (h : compressedSize ≠ 0) :
    (zipPipeFileStream compressedSize L sched).fed = [] ∧
    (0 < L → (zipPipeFileStream compressedSize L sched).outcome = .hangs) := by
  unfold zipPipeFileStream
  rw [if_neg h]
  refine ⟨rfl, fun hL => ?_⟩
  have : inflateEnded L 0 = false := by
    simp [inflateEnded]
    omega
  simp [this]

theorem zip_known_size_feeds_nothing_witness :
    (5 : Nat) ≠ 0 ∧
    ((zipPipeFileStream 5 3 [[1, 2, 3]]).fed = [] ∧
     (0 < 3 → (zipPipeFileStream 5 3 [[1, 2, 3]]).outcome = .hangs)) :=
  ⟨by decide, zip_known_size_feeds_nothing 5 3 [[1, 2, 3]] (by decide)⟩

/-- C9 counterexample: a stall timeout raised inside the unknown-size
loop of `ZipExtractStream._pipeFileStream` (modelled by the loop returning
`.error .timeout`) is caught by the surrounding `try/catch`, which only logs
it; the pipe's terminal result is an indefinite suspension (`hangs`), not a
propagated error — so this fatal condition is discarded without surfacing. -/
theorem zip_pipe_swallows_stall_timeout :
    zipUnknownLoop 5 0 [[1, 2]] = .error .timeout ∧
    zipPipeFileStream 0 5 [[1, 2]] =
      { outcome := .hangs, fed := [[1, 2]], gaveBack := none } :=
  ⟨rfl, rfl⟩

/-! ## Staging Buffer claims -/

/-- The buffer state used by the C4 counterexample: one queued 3-byte chunk. -/
def cbThree : CB := ⟨[[1, 2, 3]], 3⟩

/-- C4 counterexample: with 3 bytes buffered, `consume(2)` followed by
`giveBack` of the returned 2 bytes leaves a buffer of size 2, not 3 — the
byte still buffered is destroyed, because `giveBack` *replaces* the chunk
queue instead of prepending to it.  So the round trip is not the identity
for `n` smaller than the buffered size. -/
theorem consume_giveBack_not_roundtrip :
    cbThree.consume 2 = some ([1, 2], ⟨[[3]], 1⟩) ∧
    CB.giveBack ⟨[[3]], 1⟩ [1, 2] 0 = ⟨[[1, 2]], 2⟩ ∧
    (⟨[[1, 2]], 2⟩ : CB).bsize ≠ cbThree.bsize := by
  refine ⟨?_, ?_, by decide⟩ <;> rfl

/-- Two well-formed buffers holding the same bytes are observationally
identical under `consume`. -/
theorem CB.consume_congr (b₁ b₂ : CB) (h₁ : b₁.wf) (h₂ : b₂.wf)
    (hf : b₁.flatten = b₂.flatten) (n : Nat) : b₁.consume n = b₂.consume n := by
  have hb : b₁.bsize = b₂.bsize := by rw [h₁, h₂, hf]
  unfold CB.consume
  rw [bufConcat_of_wf b₁ h₁, bufConcat_of_wf b₂ h₂, hf, hb]

/-- C4 amended. The consume/giveBack round trip preserves the observable
state (size and all subsequent consume results) exactly in the case the code
relies on: when the `consume` drains the whole buffer (`n` equal to the
buffered size).  For smaller `n`, `giveBack` replaces the queue and discards
the bytes still buffered (see the counterexample). -/
theorem consume_drain_giveBack_roundtrip (b : CB) (hwf : b.wf) (h0 : b.bsize ≠ 0) :
    b.consume b.bsize = some (b.flatten, cbEmpty) ∧
    (cbEmpty.giveBack b.flatten 0).flatten = b.flatten ∧
    (cbEmpty.giveBack b.flatten 0).bsize = b.bsize ∧
    ∀ n, (cbEmpty.giveBack b.flatten 0).consume n = b.consume n := by
  have hgb : cbEmpty.giveBack b.flatten 0 = ⟨[b.flatten], b.flatten.length⟩ := by
    unfold CB.giveBack
    rw [if_pos rfl]
  have hgbwf : (cbEmpty.giveBack b.flatten 0).wf := by
    rw [hgb]; simp [CB.wf, CB.flatten]
  have hgbflat : (cbEmpty.giveBack b.flatten 0).flatten = b.flatten := by
    rw [hgb]; simp [CB.flatten]
  refine ⟨?_, hgbflat, ?_, fun n => CB.consume_congr _ _ hgbwf hwf hgbflat n⟩
  · unfold CB.consume
    rw [if_neg (by simp), if_pos h0, bufConcat_of_wf b hwf]
    rfl
  · rw [hgb]
    exact hwf.symm

theorem consume_drain_giveBack_roundtrip_witness :
    (⟨[[5], [6]], 2⟩ : CB).wf ∧ (⟨[[5], [6]], 2⟩ : CB).bsize ≠ 0 ∧
    ((⟨[[5], [6]], 2⟩ : CB).consume 2 = some ([5, 6], cbEmpty) ∧
     (cbEmpty.giveBack (⟨[[5], [6]], 2⟩ : CB).flatten 0).flatten = (⟨[[5], [6]], 2⟩ : CB).flatten ∧
     (cbEmpty.giveBack (⟨[[5], [6]], 2⟩ : CB).flatten 0).bsize = 2 ∧
     ∀ n, (cbEmpty.giveBack (⟨[[5], [6]], 2⟩ : CB).flatten 0).consume n =
       (⟨[[5], [6]], 2⟩ : CB).consume n) :=
  ⟨by decide, by decide, consume_drain_giveBack_roundtrip ⟨[[5], [6]], 2⟩ (by decide) (by decide)⟩

/-- C5. Conservation: push any finite sequence of chunk groups into a
fresh Staging Buffer; then any maximal sequence of `consume` calls (no
`giveBack`) returns buffers whose concatenation, together with the bytes
still buffered when `cleanup` discards them, is exactly the pushed bytes in
push order. -/
theorem chunkBuffer_conservation (groups : List (List (List Nat))) (reqs : List Nat) :
    (runConsumes (pushAll groups) reqs).1.flatten ++ (runConsumes (pushAll groups) reqs).2.flatten
      = (groups.map List.flatten).flatten := by
  obtain ⟨hwf, hfl⟩ := pushAll_wf_flatten groups
  have h := runConsumes_conservation reqs (pushAll groups) hwf
  rw [h.1, hfl]

/-- C8. After an unknown-size body, the Zip worker reads exactly 16
bytes; if the first 4 (big-endian) equal `0x504B0708` the three descriptor
fields are the following 12 bytes as little-endian 32-bit values; otherwise
they are the first 12 of the 16 bytes and the excess last 4 bytes are pushed
back into the Staging Buffer (they are its front content afterwards).  The
result is produced — never an abort — regardless of whether the descriptor
sizes match the byte counts actually produced (`P`, `Q` arbitrary). -/
theorem zip_data_descriptor_spec (b : CB) (P Q : Nat) (hwf : b.wf) (h16 : 16 ≤ b.bsize) :
    ∃ dd mc mu b',
      zipReadDataDescriptor b P Q = some (dd, mc, mu, b') ∧
      ((readBE ((b.flatten.take 16).take 4) = 0x504B0708 →
          dd = ⟨readLE (((b.flatten.take 16).drop 4).take 4),
                readLE (((b.flatten.take 16).drop 8).take 4),
                readLE (((b.flatten.take 16).drop 12).take 4)⟩ ∧
          b'.flatten = b.flatten.drop 16) ∧
       (readBE ((b.flatten.take 16).take 4) ≠ 0x504B0708 →
          dd = ⟨readLE ((b.flatten.take 16).take 4),
                readLE (((b.flatten.take 16).drop 4).take 4),
                readLE (((b.flatten.take 16).drop 8).take 4)⟩ ∧
          b'.chunks = [(b.flatten.take 16).drop 12] ∧ b'.bsize = 4)) ∧
      mc = decide (dd.compressedSize ≠ P) ∧ mu = decide (dd.uncompressedSize ≠ Q) := by
  have hwb : b.bsize = b.flatten.length := hwf
  have hlen : 16 ≤ b.flatten.length := by omega
  have hbuflen : (b.flatten.take 16).length = 16 := by
    rw [List.length_take]; omega
  have hcons : ∃ bnext : CB, b.consume 16 = some (b.flatten.take 16, bnext) ∧
      bnext.flatten = b.flatten.drop 16 := by
    unfold CB.consume
    rcases Nat.lt_or_ge 16 b.bsize with h | h
    · refine ⟨⟨[b.flatten.drop 16], (b.flatten.drop 16).length⟩, ?_, by simp [CB.flatten]⟩
      rw [if_pos ⟨by omega, by omega⟩, if_pos h, bufConcat_of_wf b hwf]
    · have heq : b.bsize = 16 := by omega
      refine ⟨⟨[], 0⟩, ?_, ?_⟩
      · rw [if_neg (by omega), if_pos (by omega), bufConcat_of_wf b hwf,
          List.take_of_length_le (by omega)]
      · show ([] : List Nat) = b.flatten.drop 16
        exact (List.drop_of_length_le (by omega)).symm
  obtain ⟨bnext, hcons, hnextflat⟩ := hcons
  unfold zipReadDataDescriptor
  rw [hcons]
  dsimp only
  by_cases hsig : readBE ((b.flatten.take 16).take 4) = 0x504B0708
  · rw [if_pos hsig]
    exact ⟨_, _, _, _, rfl, ⟨fun _ => ⟨rfl, hnextflat⟩, fun hn => absurd hsig hn⟩, rfl, rfl⟩
  · rw [if_neg hsig]
    have hgb : bnext.giveBack (b.flatten.take 16) 4 =
        ⟨[(b.flatten.take 16).drop 12], 4⟩ := by
      rw [CB.giveBack_pos _ _ _ (by omega) (by omega), hbuflen]
    refine ⟨_, _, _, _, rfl, ⟨fun hy => absurd hy hsig, fun _ => ?_⟩, rfl, rfl⟩
    rw [hgb]
    exact ⟨rfl, rfl, rfl⟩

/-- The 16 descriptor bytes used by the C8 witness (signature present). -/
def ddBuf : CB := ⟨[[0x50, 0x4B, 0x07, 0x08, 1, 0, 0, 0, 2, 0, 0, 0, 3, 0, 0, 0]], 16⟩

theorem zip_data_descriptor_spec_witness :
    ddBuf.wf ∧ 16 ≤ ddBuf.bsize ∧
    ∃ dd mc mu b',
      zipReadDataDescriptor ddBuf 2 3 = some (dd, mc, mu, b') ∧
      ((readBE ((ddBuf.flatten.take 16).take 4) = 0x504B0708 →
          dd = ⟨readLE (((ddBuf.flatten.take 16).drop 4).take 4),
                readLE (((ddBuf.flatten.take 16).drop 8).take 4),
                readLE (((ddBuf.flatten.take 16).drop 12).take 4)⟩ ∧
          b'.flatten = ddBuf.flatten.drop 16) ∧
       (readBE ((ddBuf.flatten.take 16).take 4) ≠ 0x504B0708 →
          dd = ⟨readLE ((ddBuf.flatten.take 16).take 4),
                readLE (((ddBuf.flatten.take 16).drop 4).take 4),
                readLE (((ddBuf.flatten.take 16).drop 8).take 4)⟩ ∧
          b'.chunks = [(ddBuf.flatten.take 16).drop 12] ∧ b'.bsize = 4)) ∧
      mc = decide (dd.compressedSize ≠ 2) ∧ mu = decide (dd.uncompressedSize ≠ 3) :=
  ⟨by decide, by decide, zip_data_descriptor_spec ddBuf 2 3 (by decide) (by decide)⟩

/-! ## Tar decoder (`TarExtractStream`) -/

/-- A JS value stored in a parsed header object: a decoded string, a number,
`NaN` (from `parseInt` of a non-octal string), or `null`. -/
inductive HVal where
  | vStr (s : List Char)
  | vInt (n : Int)
  | vNan
  | vNull
deriving Repr, DecidableEq

/-- A JS object built from object literals and spreads, as the assignment
sequence: on lookup the last assignment of a key wins. -/
abbrev Obj := List (String × HVal)

/-- Property lookup: the last assignment wins (spread/override order). -/
def objGet (o : Obj) (k : String) : Option HVal :=
  (o.reverse.find? (fun p => p.1 == k)).map (fun p => p.2)

/-- The `new TextDecoder('utf-8').decode(bytes)`: ASCII bytes decode to
themselves; well-formed multi-byte sequences decode to the encoded code
point; malformed bytes become U+FFFD.  (In `_parseHeader` the argument is
always pure ASCII, because a byte ≥ 0x80 sends the field to the binary path
before the string is extracted.) -/
def utf8Cont (rest : List Nat) (k : Nat) : Bool :=
  decide (k ≤ rest.length) &&
    (rest.take k).all (fun x => decide (0x80 ≤ x) && decide (x ≤ 0xBF))

/-- Worker for `utf8Decode`, structurally recursive on a fuel that bounds
the number of decoding steps; every step consumes at least one byte, so
`l.length` fuel is always enough. -/
def utf8Go : Nat → List Nat → List Char
  | 0, _ => []
  | _, [] => []
  | fuel + 1, b :: rest =>
    if b < 0x80 then Char.ofNat b :: utf8Go fuel rest
    else if (0xC2 ≤ b ∧ b ≤ 0xDF) ∧ utf8Cont rest 1 then
      Char.ofNat (((b - 0xC0) <<< 6) + (rest.headD 0 - 0x80)) :: utf8Go fuel (rest.drop 1)
    else if (0xE0 ≤ b ∧ b ≤ 0xEF) ∧ utf8Cont rest 2 then
      Char.ofNat (((b - 0xE0) <<< 12) + ((rest.headD 0 - 0x80) <<< 6) +
        ((rest.drop 1).headD 0 - 0x80)) :: utf8Go fuel (rest.drop 2)
    else if (0xF0 ≤ b ∧ b ≤ 0xF4) ∧ utf8Cont rest 3 then
      Char.ofNat (((b - 0xF0) <<< 18) + ((rest.headD 0 - 0x80) <<< 12) +
        (((rest.drop 1).headD 0 - 0x80) <<< 6) + ((rest.drop 2).headD 0 - 0x80))
        :: utf8Go fuel (rest.drop 3)
    else Char.ofNat 0xFFFD :: utf8Go fuel rest

def utf8Decode (l : List Nat) : List Char := utf8Go l.length l

/-- Whitespace skipped by JS `parseInt`. -/
def jsIsSpace (c : Char) : Bool := c == ' ' || c == '\t' || c == '\n' || c == '\r'

/-- Octal digit value of a character, if it is one. -/
def octDigit? (c : Char) : Option Nat :=
  if '0' ≤ c ∧ c ≤ '7' then some (c.toNat - '0'.toNat) else none

/-- Accumulate octal digits until the first non-digit. -/
def parseOctDigits (acc : Nat) : List Char → Nat
  | [] => acc
  | c :: rest =>
    match octDigit? c with
    | some d => parseOctDigits (acc * 8 + d) rest
    | none => acc

/-- JS `parseInt(s, 8)`: skip leading whitespace, take an optional sign,
then parse octal digits up to the first non-digit; `none` models `NaN`
(no digit found). -/
def jsParseIntOct (s : List Char) : Option Int :=
  let t := s.dropWhile jsIsSpace
  let su : Int × List Char :=
    match t with
    | '-' :: rest => (-1, rest)
    | '+' :: rest => (1, rest)
    | _ => (1, t)
  match su.2 with
  | c :: _ => if (octDigit? c).isSome then some (su.1 * (parseOctDigits 0 su.2 : Int)) else none
  | [] => none

inductive TarErr where
  /-- The `throw Error('Stream IO timeout!')` after a `ChunkBuffer` timeout. -/
  | timeout
  /-- The `'Binary header fields of less than 64 bits not supported, yet...'`. -/
  | unsupportedBinary
  /-- The `'Binary header value doesn't fit in 53 bits.'`. -/
  | binaryTooLarge
  /-- A `size` value whose JS arithmetic falls outside this model: a negative
  number (octal field with a leading minus) or a string (only producible by a
  PAX key colliding with a standard field name).  Unreachable for the inputs
  quantified over by the theorems below. -/
  | badSize
deriving Repr, DecidableEq

/-- The byte scan of `entry(size, isOctal)`: walk the field's bytes in
order; a byte whose bit 7 is set (`byte >> 7 & 1`) selects binary decoding
(`none`); a NUL terminates the string, giving its length `strSize`; the
field ending does the same. -/
def tarFieldScan : List Nat → Option Nat
  | [] => some 0
  | b :: rest =>
    if (b >>> 7) &&& 1 = 1 then none
    else if b = 0 then some 0
    else
      match tarFieldScan rest with
      | none => none
      | some n => some (n + 1)

/-- The `entry(size, isOctal)` of `TarExtractStream._parseHeader`, applied to
the `size` bytes of one field.  The binary path requires at least 64 bits,
reads the low (last) 8 bytes big-endian (`readBigUInt64BE(offset+size-8)`),
and rejects values above `Number.MAX_SAFE_INTEGER` (the read is unsigned, so
the `< MIN_SAFE_INTEGER` check can never fire).  A zero-length string is
`null`; otherwise the string branch decodes UTF-8 and, for octal fields,
applies `parseInt(result, 8)`. -/
def tarEntry (field : List Nat) (isOctal : Bool) : Except TarErr HVal :=
  match tarFieldScan field with
  | none =>
    if field.length * 8 < 64 then .error .unsupportedBinary
    else
      let value := readBE (field.drop (field.length - 8))
      if value > 2 ^ 53 - 1 then .error .binaryTooLarge
      else .ok (.vInt value)
  | some strSize =>
    if strSize = 0 then .ok .vNull
    else
      let result := utf8Decode (field.take strSize)
      if isOctal then
        match jsParseIntOct result with
        | some n => .ok (.vInt n)
        | none => .ok .vNan
      else .ok (.vStr result)

/-- The fixed field layout of a 512-byte Tar record, in parse order:
name, byte width, whether the field is parsed as octal. -/
def tarFieldSpec : List (String × Nat × Bool) :=
  [("name", 100, false), ("mode", 8, true), ("uid", 8, true), ("gid", 8, true),
   ("size", 12, true), ("mtime", 12, true), ("checksum", 8, false),
   ("typeflag", 1, false), ("linkname", 100, false), ("magic", 6, false),
   ("version", 2, false), ("uname", 32, false), ("gname", 32, false),
   ("devmajor", 8, true), ("devminor", 8, true), ("prefix", 155, false)]

/-- Run the `entry(...)` calls of `_parseHeader` over the record bytes,
threading the offset (here: dropping each field's bytes). -/
def tarParseFields (b : List Nat) : List (String × Nat × Bool) → Except TarErr (List (String × HVal))
  | [] => .ok []
  | (k, sz, oct) :: rest =>
    match tarEntry (b.take sz) oct with
    | .error e => .error e
    | .ok v =>
      match tarParseFields (b.drop sz) rest with
      | .error e => .error e
      | .ok vs => .ok ((k, v) :: vs)

/-- The `TarExtractStream._parseHeader()`: consume 512 bytes (timeout when the
stream ends first), run the field parses, then spread the current global
header over the field object (`{...fields, ...this._globalHeader}`).
`allZero` holds exactly when every `entry` call returned `null` (the binary
path and any nonzero `strSize` clear it), which signals end-of-archive. -/
def tarParseHeader (global : Obj) (input : List Nat) : Except TarErr (Option Obj × List Nat) :=
  if input.length < 512 then .error .timeout
  else
    match tarParseFields (input.take 512) tarFieldSpec with
    | .error e => .error e
    | .ok fields =>
      if fields.all (fun p => p.2 == HVal.vNull) then .ok (none, input.drop 512)
      else .ok (some (fields ++ global), input.drop 512)

/-- JS `String.prototype.indexOf` for one character: the index of the first
occurrence, `-1` when absent. -/
def jsIndexOf (s : List Char) (c : Char) : Int :=
  match s with
  | [] => -1
  | x :: rest =>
    if x == c then 0
    else
      let r := jsIndexOf rest c
      if r < 0 then -1 else r + 1

/-- JS `String.prototype.substring(a, b)`: both indices clamped into
`[0, length]` and swapped when `a > b`. -/
def jsSubstring (s : List Char) (a b : Int) : List Char :=
  let len : Int := s.length
  let a' := min (max a 0) len
  let b' := min (max b 0) len
  (s.take (max a' b').toNat).drop (min a' b').toNat

/-- One line of a PAX body, as `_parsePaxEntries` handles it:
`a = line.indexOf(' ')`, `b = line.indexOf('=')`,
`key = line.substring(a, b)`, `value = line.substring(b+1)`.
(The declared `length` is compared to the line length only for a log.) -/
def parsePaxLine (line : List Char) : List Char × List Char :=
  let a := jsIndexOf line ' '
  let b := jsIndexOf line '='
  (jsSubstring line a b, jsSubstring line (b + 1) (line.length : Int))

/-- The PAX body text split on `'\n'`, each line contributing
`paxEntries[key] = value` (later lines override earlier ones). -/
def parsePaxText (text : List Char) : Obj :=
  (text.splitOn '\n').map (fun line =>
    ((String.mk (parsePaxLine line).1), HVal.vStr (parsePaxLine line).2))

/-- The `TarExtractStream._parsePaxEntries(size)`: consume
`Math.ceil(size/512)*512` bytes — which is `consume(0)`, i.e. everything
currently buffered (the whole remaining stream in this model), when that is
0 — and parse the text `decode(buffer.subarray(0, size))`. -/
def tarParsePaxEntries (size : Nat) (input : List Nat) : Except TarErr (Obj × List Nat) :=
  let bufferSize := (size + 511) / 512 * 512
  if bufferSize = 0 then
    if input.length = 0 then .error .timeout
    else .ok (parsePaxText (utf8Decode (input.take size)), [])
  else
    if input.length < bufferSize then .error .timeout
    else .ok (parsePaxText (utf8Decode ((input.take bufferSize).take size)), input.drop bufferSize)

/-- The `Math.ceil(size/512) * 512`. -/
def alignUp512 (size : Nat) : Nat := (size + 511) / 512 * 512

/-- The numeric `size` the worker computes with.  JS arithmetic makes
`null`, `undefined` and `NaN` behave exactly like `0` at both use sites
(`Math.ceil(size/512)*512` and the push counter), so those map to `some 0`.
A negative number or a string value (see `TarErr.badSize`) is `none`. -/
def tarSizeOf (h : Obj) : Option Nat :=
  match objGet h "size" with
  | some (.vInt n) => if n < 0 then none else some n.toNat
  | some .vNull => some 0
  | some .vNan => some 0
  | none => some 0
  | some (.vStr _) => none

/-- An `entry` event emitted by the Tar worker: the parsed header, and for a
body-carrying entry the file stream's content (the buffers pushed to it, in
order) together with whether `push(null)` — the end marker — was signalled. -/
inductive TarEvent where
  | entry (header : Obj) (stream : Option (List (List Nat) × Bool))
deriving Repr, DecidableEq

/-- The body-copy loop of `TarExtractStream._pipeFileStream`.  `btc` is
`bytesToConsume` (initially `Math.ceil(size/512)*512`), `btp` is
`bytesToPush` (initially `size`).  `sched` lists, per iteration, the byte
count the loop observes as available
(`this._chunkBuffer.size + this.writableLength`); the loop consumes `btc`
bytes when that many are available, otherwise exactly the available amount.
An exhausted schedule or insufficient input is a stalled source (the consume
waits and times out).  When the observed availability is 0 the code calls
`consume(0)`, which returns *everything* buffered — possibly more than
`btc`, driving the JS counter negative; that over-read is outside this model
(theorems below assume positive availability) and is returned as a timeout
here.  Result: buffers pushed to the file stream, whether the end marker was
signalled, and the remaining input. -/
def tarPipeLoop (btc btp : Nat) (ended : Bool) (sched : List Nat) (input : List Nat) :
    Except TarErr (List (List Nat) × Bool × List Nat) :=
  if btc = 0 then .ok ([], ended, input)
  else
    match sched with
    | [] => .error .timeout
    | avail :: sched' =>
      let k := min avail btc
      if k = 0 then .error .timeout
      else if input.length < k then .error .timeout
      else
        let buffer := input.take k
        if 0 < btp then
          let bufferToPush := buffer.take btp
          let btp' := btp - bufferToPush.length
          let ended' := ended || decide (btp' = 0)
          match tarPipeLoop (btc - k) btp' ended' sched' (input.drop k) with
          | .error e => .error e
          | .ok (ps, e, rest) => .ok (bufferToPush :: ps, e, rest)
        else
          tarPipeLoop (btc - k) btp ended sched' (input.drop k)

/-- The `TarExtractStream._pipeFileStream(fileStream, size)`. -/
def tarPipeFileStream (size : Nat) (sched : List Nat) (input : List Nat) :
    Except TarErr (List (List Nat) × Bool × List Nat) :=
  tarPipeLoop (alignUp512 size) size false sched input

/-- The `header.linkname == null` — JS loose equality, also true for
`undefined`. -/
def isNullish : Option HVal → Bool
  | none => true
  | some .vNull => true
  | some _ => false

/-- The emit phase of one worker iteration: when `linkname == null` a
`GenericReadable` is opened, `(header, fileStream)` is emitted and the body
is piped (in the worker the whole remaining stream has arrived, so the pipe
loop sees everything at once: schedule `[alignUp512 size]`); otherwise the
header is emitted alone. -/
def tarEmitPhase (h : Obj) (global : Obj) (input : List Nat) :
    Except TarErr (TarEvent × Obj × List Nat) :=
  if isNullish (objGet h "linkname") then
    match tarSizeOf h with
    | none => .error .badSize
    | some size =>
      match tarPipeFileStream size [alignUp512 size] input with
      | .error e => .error e
      | .ok (pushed, ended, rest) => .ok (.entry h (some (pushed, ended)), global, rest)
  else .ok (.entry h none, global, input)

/-- One iteration of the `TarExtractStream._worker` loop: parse a header
(`none` = all-null record = end of tar); on typeflag `g`/`x` parse the PAX
body, for `g` replace the global header, parse the following header (under
the updated global) and spread the PAX entries over it
(`{...await this._parseHeader(), ...paxEntries}`); then emit. -/
def tarStep (global : Obj) (input : List Nat) :
    Except TarErr (Option (TarEvent × Obj × List Nat)) :=
  match tarParseHeader global input with
  | .error e => .error e
  | .ok (none, _) => .ok none
  | .ok (some header, rest) =>
    if objGet header "typeflag" = some (.vStr ['g']) ∨
        objGet header "typeflag" = some (.vStr ['x']) then
      match tarSizeOf header with
      | none => .error .badSize
      | some size =>
        match tarParsePaxEntries size rest with
        | .error e => .error e
        | .ok (paxEntries, rest2) =>
          let global' :=
            if objGet header "typeflag" = some (.vStr ['g']) then paxEntries else global
          match tarParseHeader global' rest2 with
          | .error e => .error e
          | .ok (next, rest3) =>
            let merged := (match next with | some nh => nh | none => []) ++ paxEntries
            match tarEmitPhase merged global' rest3 with
            | .error e => .error e
            | .ok r => .ok (some r)
    else
      match tarEmitPhase header global rest with
      | .error e => .error e
      | .ok r => .ok (some r)

theorem tarPipeLoop_length_le (sched : List Nat) :
    ∀ btc btp ended input ps e rest,
      tarPipeLoop btc btp ended sched input = .ok (ps, e, rest) →
      rest.length ≤ input.length := by
  induction sched with
  | nil =>
    intro btc btp ended input ps e rest h
    unfold tarPipeLoop at h
    by_cases h0 : btc = 0
    · rw [if_pos h0] at h
      simp only [Except.ok.injEq, Prod.mk.injEq] at h
      obtain ⟨_, _, h3⟩ := h
      subst h3; exact Nat.le_refl _
    · rw [if_neg h0] at h
      exact absurd h (by simp)
  | cons avail sched' ih =>
    intro btc btp ended input ps e rest h
    unfold tarPipeLoop at h
    by_cases h0 : btc = 0
    · rw [if_pos h0] at h
      simp only [Except.ok.injEq, Prod.mk.injEq] at h
      obtain ⟨_, _, h3⟩ := h
      subst h3; exact Nat.le_refl _
    · rw [if_neg h0] at h
      dsimp only at h
      by_cases h1 : min avail btc = 0
      · rw [if_pos h1] at h
        exact absurd h (by simp)
      · rw [if_neg h1] at h
        by_cases h2 : input.length < min avail btc
        · rw [if_pos h2] at h
          exact absurd h (by simp)
        · rw [if_neg h2] at h
          by_cases h3 : 0 < btp
          · rw [if_pos h3] at h
            cases hrec : tarPipeLoop (btc - min avail btc) (btp - (List.take btp (List.take (min avail btc) input)).length)
                (ended || decide (btp - (List.take btp (List.take (min avail btc) input)).length = 0))
                sched' (input.drop (min avail btc)) with
            | error ex => rw [hrec] at h; exact absurd h (by simp)
            | ok r =>
              obtain ⟨ps', e', rest'⟩ := r
              rw [hrec] at h
              simp only [Except.ok.injEq, Prod.mk.injEq] at h
              obtain ⟨_, _, h6⟩ := h
              subst h6
              have := ih _ _ _ _ _ _ _ hrec
              rw [List.length_drop] at this
              omega
          · rw [if_neg h3] at h
            have := ih _ _ _ _ _ _ _ h
            rw [List.length_drop] at this
            omega

theorem tarParseHeader_consumed (g : Obj) (i : List Nat) (o : Option Obj) (r : List Nat)
    (h : tarParseHeader g i = .ok (o, r)) : r = i.drop 512 ∧ 512 ≤ i.length := by
  unfold tarParseHeader at h
  by_cases h0 : i.length < 512
  · rw [if_pos h0] at h
    exact absurd h (by simp)
  · rw [if_neg h0] at h
    cases hf : tarParseFields (i.take 512) tarFieldSpec with
    | error e => rw [hf] at h; exact absurd h (by simp)
    | ok fields =>
      rw [hf] at h
      dsimp only at h
      by_cases hz : fields.all (fun p => p.2 == HVal.vNull)
      · rw [if_pos hz] at h
        simp only [Except.ok.injEq, Prod.mk.injEq] at h
        exact ⟨h.2.symm, by omega⟩
      · rw [if_neg hz] at h
        simp only [Except.ok.injEq, Prod.mk.injEq] at h
        exact ⟨h.2.symm, by omega⟩

theorem tarParsePaxEntries_length (size : Nat) (i : List Nat) (p : Obj) (r : List Nat)
    (h : tarParsePaxEntries size i = .ok (p, r)) : r.length ≤ i.length := by
  unfold tarParsePaxEntries at h
  by_cases h0 : (size + 511) / 512 * 512 = 0
  · rw [if_pos h0] at h
    by_cases h1 : i.length = 0
    · rw [if_pos h1] at h; exact absurd h (by simp)
    · rw [if_neg h1] at h
      simp only [Except.ok.injEq, Prod.mk.injEq] at h
      rw [← h.2]
      simp
  · rw [if_neg h0] at h
    by_cases h1 : i.length < (size + 511) / 512 * 512
    · rw [if_pos h1] at h; exact absurd h (by simp)
    · rw [if_neg h1] at h
      simp only [Except.ok.injEq, Prod.mk.injEq] at h
      rw [← h.2]
      simp

theorem tarEmitPhase_length (h g : Obj) (i : List Nat) (ev : TarEvent) (g' : Obj) (r : List Nat)
    (hh : tarEmitPhase h g i = .ok (ev, g', r)) : r.length ≤ i.length := by
  unfold tarEmitPhase at hh
  by_cases h0 : isNullish (objGet h "linkname")
  · rw [if_pos h0] at hh
    cases hs : tarSizeOf h with
    | none => rw [hs] at hh; exact absurd hh (by simp)
    | some size =>
      rw [hs] at hh
      dsimp only at hh
      cases hp : tarPipeFileStream size [alignUp512 size] i with
      | error e => rw [hp] at hh; exact absurd hh (by simp)
      | ok res =>
        obtain ⟨ps, e, rest⟩ := res
        rw [hp] at hh
        simp only [Except.ok.injEq, Prod.mk.injEq] at hh
        rw [← hh.2.2]
        exact tarPipeLoop_length_le _ _ _ _ _ _ _ _ hp
  · rw [if_neg h0] at hh
    simp only [Except.ok.injEq, Prod.mk.injEq] at hh
    rw [← hh.2.2]

theorem tarStep_consumed (g : Obj) (i : List Nat) (ev : TarEvent) (g' : Obj) (r : List Nat)
    (h : tarStep g i = .ok (some (ev, g', r))) : r.length < i.length := by
  unfold tarStep at h
  cases hp : tarParseHeader g i with
  | error e => rw [hp] at h; exact absurd h (by simp)
  | ok res =>
    obtain ⟨o, rest⟩ := res
    rw [hp] at h
    cases o with
    | none => exact absurd h (by simp)
    | some header =>
      dsimp only at h
      obtain ⟨hrest, hlen⟩ := tarParseHeader_consumed g i (some header) rest hp
      have hrlen : rest.length < i.length := by
        rw [hrest, List.length_drop]; omega
      by_cases hflag : objGet header "typeflag" = some (.vStr ['g']) ∨
          objGet header "typeflag" = some (.vStr ['x'])
      · rw [if_pos hflag] at h
        cases hs : tarSizeOf header with
        | none => rw [hs] at h; exact absurd h (by simp)
        | some size =>
          rw [hs] at h
          dsimp only at h
          cases hpx : tarParsePaxEntries size rest with
          | error e => rw [hpx] at h; exact absurd h (by simp)
          | ok pres =>
            obtain ⟨pax, rest2⟩ := pres
            rw [hpx] at h
            dsimp only at h
            cases hp2 : tarParseHeader
                (if objGet header "typeflag" = some (.vStr ['g']) then pax else g) rest2 with
            | error e => rw [hp2] at h; exact absurd h (by simp)
            | ok res2 =>
              obtain ⟨next, rest3⟩ := res2
              rw [hp2] at h
              dsimp only at h
              generalize hM : (match next with | some nh => nh | none => ([] : Obj)) = M at h
              cases hemit : tarEmitPhase (M ++ pax)
                  (if objGet header "typeflag" = some (.vStr ['g']) then pax else g) rest3 with
              | error e => rw [hemit] at h; exact absurd h (by simp)
              | ok er =>
                obtain ⟨ev2, g2, r2⟩ := er
                rw [hemit] at h
                simp only [Except.ok.injEq, Option.some.injEq, Prod.mk.injEq] at h
                obtain ⟨_, _, hr⟩ := h
                subst hr
                have l1 := tarEmitPhase_length _ _ _ _ _ _ hemit
                obtain ⟨hr3, _⟩ := tarParseHeader_consumed _ _ _ _ hp2
                have l2 : rest3.length ≤ rest2.length := by
                  rw [hr3, List.length_drop]; omega
                have l3 := tarParsePaxEntries_length _ _ _ _ hpx
                omega
      · rw [if_neg hflag] at h
        cases hemit : tarEmitPhase header g rest with
        | error e => rw [hemit] at h; exact absurd h (by simp)
        | ok er =>
          obtain ⟨ev2, g2, r2⟩ := er
          rw [hemit] at h
          simp only [Except.ok.injEq, Option.some.injEq, Prod.mk.injEq] at h
          obtain ⟨_, _, hr⟩ := h
          subst hr
          have := tarEmitPhase_length _ _ _ _ _ _ hemit
          omega

/-- The `TarExtractStream._worker` loop: iterate `tarStep` until the
end-of-archive record (`cleanup` then ends the stream) or an error, which
propagates out of the worker uncaught. -/
def tarWorkerGo (global : Obj) (input : List Nat) : Except TarErr (List TarEvent) :=
  match hstep : tarStep global input with
  | .error e => .error e
  | .ok none => .ok []
  | .ok (some (ev, g', rest)) =>
    match tarWorkerGo g' rest with
    | .error e => .error e
    | .ok evs => .ok (ev :: evs)
termination_by input.length
decreasing_by exact tarStep_consumed global input ev g' rest hstep

/-- Full characterisation of the body-copy loop under positive availability:
it consumes exactly `btc` bytes, pushes exactly the first `min btp btc` of
them, and the end marker is signalled exactly when the push counter reaches
0 through a push, i.e. when `0 < btp ≤ btc`. -/
theorem tarPipeLoop_spec (sched : List Nat) :
    ∀ (btc btp : Nat) (ended : Bool) (input : List Nat),
      (∀ a ∈ sched, 0 < a) → btc ≤ input.length → btc ≤ sched.sum →
      ∃ pushed,
        tarPipeLoop btc btp ended sched input =
          .ok (pushed, ended || decide (0 < btp ∧ btp ≤ btc), input.drop btc) ∧
        pushed.flatten = input.take (min btp btc) := by
  induction sched with
  | nil =>
    intro btc btp ended input _ _ hsum
    have hbtc : btc = 0 := by simpa using hsum
    subst hbtc
    refine ⟨[], ?_, by simp⟩
    unfold tarPipeLoop
    rw [if_pos rfl]
    have hd : decide (0 < btp ∧ btp ≤ 0) = false := decide_eq_false (by omega)
    rw [hd, Bool.or_false, List.drop_zero]
  | cons avail sched' ih =>
    intro btc btp ended input hpos hlen hsum
    by_cases h0 : btc = 0
    · subst h0
      refine ⟨[], ?_, by simp⟩
      unfold tarPipeLoop
      rw [if_pos rfl]
      have hd : decide (0 < btp ∧ btp ≤ 0) = false := decide_eq_false (by omega)
      rw [hd, Bool.or_false, List.drop_zero]
    · have havail : 0 < avail := hpos avail (by simp)
      have hsum' : btc ≤ avail + sched'.sum := by simpa using hsum
      have hk0 : ¬(min avail btc = 0) := by omega
      have hkle : min avail btc ≤ btc := Nat.min_le_right _ _
      have hklen : ¬(input.length < min avail btc) := by omega
      have hpos' : ∀ a ∈ sched', 0 < a := fun a ha => hpos a (by simp [ha])
      unfold tarPipeLoop
      rw [if_neg h0]
      dsimp only
      rw [if_neg hk0, if_neg hklen]
      have htl : (input.take (min avail btc)).length = min avail btc := by
        rw [List.length_take]; omega
      have hdd : (input.drop (min avail btc)).drop (btc - min avail btc) = input.drop btc := by
        rw [List.drop_drop]; congr 1; omega
      by_cases hbtp : 0 < btp
      · rw [if_pos hbtp]
        have hbl : ((input.take (min avail btc)).take btp).length = min btp (min avail btc) := by
          rw [List.length_take, htl]
        obtain ⟨ps, hrec, hflat⟩ := ih (btc - min avail btc)
            (btp - ((input.take (min avail btc)).take btp).length)
            (ended || decide (btp - ((input.take (min avail btc)).take btp).length = 0))
            (input.drop (min avail btc))
            hpos' (by rw [List.length_drop]; omega) (by omega)
        rw [hrec]
        refine ⟨(input.take (min avail btc)).take btp :: ps, ?_, ?_⟩
        · rw [hdd, hbl]
          have hbool : ((ended || decide (btp - min btp (min avail btc) = 0))
              || decide (0 < btp - min btp (min avail btc) ∧
                   btp - min btp (min avail btc) ≤ btc - min avail btc))
              = (ended || decide (0 < btp ∧ btp ≤ btc)) := by
            cases ended with
            | true => simp
            | false =>
              simp only [Bool.false_or]
              rw [Bool.eq_iff_iff]
              simp only [Bool.or_eq_true, decide_eq_true_eq]
              omega
          rw [hbool]
        · rw [List.flatten_cons, hflat, hbl, List.take_take]
          by_cases hc : btp ≤ min avail btc
          · have e1 : min btp (min avail btc) = btp := by omega
            rw [e1]
            have e2 : min (btp - btp) (btc - min avail btc) = 0 := by omega
            rw [e2, List.take_zero, List.append_nil]
            have e3 : min btp btc = btp := by omega
            rw [e3]
          · have e1 : min btp (min avail btc) = min avail btc := by omega
            rw [e1]
            have e2 : min btp btc = min avail btc +
                min (btp - min avail btc) (btc - min avail btc) := by omega
            rw [e2, List.take_add]
      · rw [if_neg hbtp]
        have hbz : btp = 0 := by omega
        subst hbz
        obtain ⟨ps, hrec, hflat⟩ := ih (btc - min avail btc) 0 ended
            (input.drop (min avail btc)) hpos' (by rw [List.length_drop]; omega) (by omega)
        rw [hrec, hdd]
        refine ⟨ps, ?_, ?_⟩
        · have e1 : decide ((0 : Nat) < 0 ∧ (0 : Nat) ≤ btc - min avail btc) = false :=
            decide_eq_false (by omega)
          have e2 : decide ((0 : Nat) < 0 ∧ (0 : Nat) ≤ btc) = false :=
            decide_eq_false (by omega)
          rw [e1, e2]
        · rw [hflat]
          simp

theorem le_alignUp512 (n : Nat) : n ≤ alignUp512 n := by
  unfold alignUp512; omega

theorem alignUp512_pos (n : Nat) (h : 0 < n) : 0 < alignUp512 n := by
  unfold alignUp512; omega

theorem tarEmitPhase_link (h g : Obj) (input : List Nat)
    (hlink : isNullish (objGet h "linkname") = false) :
    tarEmitPhase h g input = .ok (.entry h none, g, input) := by
  unfold tarEmitPhase
  rw [hlink]
  rfl

theorem tarEmitPhase_body (h g : Obj) (input : List Nat) (n : Nat)
    (hlink : isNullish (objGet h "linkname") = true) (hsz : tarSizeOf h = some n)
    (h0 : 0 < n) (hlen : alignUp512 n ≤ input.length) :
    ∃ pushed,
      tarEmitPhase h g input =
        .ok (.entry h (some (pushed, true)), g, input.drop (alignUp512 n)) ∧
      pushed.flatten = input.take n := by
  obtain ⟨ps, heq, hflat⟩ := tarPipeLoop_spec [alignUp512 n] (alignUp512 n) n false input
    (by intro a ha; simp at ha; subst ha; exact alignUp512_pos n h0)
    hlen (by simp)
  have hb : decide (0 < n ∧ n ≤ alignUp512 n) = true :=
    decide_eq_true ⟨h0, le_alignUp512 n⟩
  have hmin : min n (alignUp512 n) = n := by
    have := le_alignUp512 n; omega
  refine ⟨ps, ?_, by rw [hflat, hmin]⟩
  unfold tarEmitPhase
  rw [hlink]
  simp only [if_true]
  rw [hsz]
  dsimp only
  unfold tarPipeFileStream
  rw [heq, hb, Bool.false_or]

theorem tarEmitPhase_zero (h g : Obj) (input : List Nat)
    (hlink : isNullish (objGet h "linkname") = true) (hsz : tarSizeOf h = some 0) :
    tarEmitPhase h g input = .ok (.entry h (some ([], false)), g, input) := by
  unfold tarEmitPhase
  rw [hlink, hsz]
  rfl

/-- C3 amended.  For a parsed Tar header (non-PAX typeflag):
if its `linkname` is non-null the worker emits the header alone, with no
file stream.  Otherwise it opens a stream and emits the pair; for `size > 0`
(and data arriving with positive availability — here the worker sees the
whole remainder) it consumes exactly `ceil(size/512)*512` bytes, forwards
exactly the first `size` of them and signals the end marker; but for
`size = 0` the copy loop body never runs, so the stream is emitted and *no*
end marker is ever signalled (see the counterexample). -/
theorem tar_entry_step (g : Obj) (input : List Nat) (h : Obj) (rest : List Nat)
    (hparse : tarParseHeader g input = .ok (some h, rest))
    (hflag : ¬(objGet h "typeflag" = some (.vStr ['g']) ∨
               objGet h "typeflag" = some (.vStr ['x']))) :
    (isNullish (objGet h "linkname") = false →
       tarStep g input = .ok (some (.entry h none, g, rest))) ∧
    (∀ n, isNullish (objGet h "linkname") = true → tarSizeOf h = some n → 0 < n →
       alignUp512 n ≤ rest.length →
       ∃ pushed,
         tarStep g input =
           .ok (some (.entry h (some (pushed, true)), g, rest.drop (alignUp512 n))) ∧
         pushed.flatten = rest.take n) ∧
    (isNullish (objGet h "linkname") = true → tarSizeOf h = some 0 →
       tarStep g input = .ok (some (.entry h (some ([], false)), g, rest))) := by
  have hstep : tarStep g input =
      (match tarEmitPhase h g rest with
       | .error e => .error e
       | .ok r => .ok (some r)) := by
    unfold tarStep
    rw [hparse]
    dsimp only
    rw [if_neg hflag]
  refine ⟨?_, ?_, ?_⟩
  · intro hlink
    rw [hstep, tarEmitPhase_link h g rest hlink]
  · intro n hlink hsz h0 hlen
    obtain ⟨ps, he, hf⟩ := tarEmitPhase_body h g rest n hlink hsz h0 hlen
    rw [hstep, he]
    exact ⟨ps, rfl, hf⟩
  · intro hlink hsz
    rw [hstep, tarEmitPhase_zero h g rest hlink hsz]

/-- A 512-byte Tar record for a directory entry: name `"a"`, size field
`"0"` (octal zero), typeflag `'5'`, all other fields empty. -/
def dirRecord : List Nat :=
  [0x61] ++ List.replicate 99 0 ++
  List.replicate 24 0 ++
  ([0x30] ++ List.replicate 11 0) ++
  List.replicate 12 0 ++
  List.replicate 8 0 ++
  [0x35] ++
  List.replicate 100 0 ++
  List.replicate 243 0 ++
  List.replicate 12 0

/-- Project out, from a worker step result, whether the emitted entry's file
stream got its end marker. -/
def stepEndSignal : Except TarErr (Option (TarEvent × Obj × List Nat)) → Option Bool
  | .ok (some (.entry _ (some (_, e)), _, _)) => some e
  | _ => none

set_option maxRecDepth 40000 in
/-- C3 counterexample: on a directory record (`size = 0`, `linkname`
null) the worker emits `(header, fileStream)` but `_pipeFileStream`'s loop
body never runs (`bytesToConsume = 0`), so `fileStream.push(null)` — the end
marker — is never called: the emitted stream reports `ended = false`,
contradicting the claim for size 0. -/
theorem tar_size_zero_no_end_marker : stepEndSignal (tarStep [] dirRecord) = some false := by
  decide

/-- A 512-byte Tar record for a regular file: name `"a"`, size field `"11"`
(octal for 9), typeflag `'0'`. -/
def fileRecord : List Nat :=
  [0x61] ++ List.replicate 99 0 ++
  List.replicate 24 0 ++
  ([0x31, 0x31] ++ List.replicate 10 0) ++
  List.replicate 12 0 ++
  List.replicate 8 0 ++
  [0x30] ++
  List.replicate 100 0 ++
  List.replicate 243 0 ++
  List.replicate 12 0

/-- A 512-byte body record: 9 data bytes then zero padding. -/
def fileBody : List Nat := [10, 20, 30, 40, 50, 60, 70, 80, 90] ++ List.replicate 503 0

/-- The header object `_parseHeader` produces for `fileRecord` (with an
empty global header). -/
def fileHdrParsed : Obj :=
  [("name", .vStr ['a']), ("mode", .vNull), ("uid", .vNull), ("gid", .vNull),
   ("size", .vInt 9), ("mtime", .vNull), ("checksum", .vNull), ("typeflag", .vStr ['0']),
   ("linkname", .vNull), ("magic", .vNull), ("version", .vNull), ("uname", .vNull),
   ("gname", .vNull), ("devmajor", .vNull), ("devminor", .vNull), ("prefix", .vNull)]

set_option maxRecDepth 40000 in
theorem tar_entry_step_witness :
    tarParseHeader [] (fileRecord ++ fileBody) = .ok (some fileHdrParsed, fileBody) ∧
    ∃ pushed,
      tarStep [] (fileRecord ++ fileBody) =
        .ok (some (.entry fileHdrParsed (some (pushed, true)), [], fileBody.drop (alignUp512 9))) ∧
      pushed.flatten = fileBody.take 9 := by
  have hp : tarParseHeader [] (fileRecord ++ fileBody) = .ok (some fileHdrParsed, fileBody) := by
    rfl
  exact ⟨hp, (tar_entry_step [] (fileRecord ++ fileBody) fileHdrParsed fileBody hp
    (by decide)).2.1 9 (by decide) (by decide) (by decide) (by decide)⟩

/-- The trigger the code actually implements: some byte with the high bit
set occurs before the first NUL byte of the field. -/
def binTriggered (field : List Nat) : Bool :=
  (field.takeWhile (fun b => b ≠ 0)).any (fun b => (b >>> 7) &&& 1 = 1)

theorem highbit_ne_zero (b : Nat) (h : (b >>> 7) &&& 1 = 1) : b ≠ 0 := by
  intro hb; subst hb; simp at h

theorem tarFieldScan_none_iff (field : List Nat) :
    tarFieldScan field = none ↔ binTriggered field = true := by
  induction field with
  | nil => simp [tarFieldScan, binTriggered]
  | cons b rest ih =>
    unfold tarFieldScan binTriggered
    unfold binTriggered at ih
    by_cases hb : (b >>> 7) &&& 1 = 1
    · rw [if_pos hb, List.takeWhile_cons,
        if_pos (decide_eq_true (highbit_ne_zero b hb)), List.any_cons,
        decide_eq_true hb, Bool.true_or]
      simp
    · rw [if_neg hb]
      by_cases hz : b = 0
      · subst hz
        rw [if_pos rfl, List.takeWhile_cons, if_neg (by simp)]
        simp
      · rw [if_neg hz, List.takeWhile_cons, if_pos (decide_eq_true hz), List.any_cons,
          decide_eq_false hb, Bool.false_or]
        cases hs : tarFieldScan rest with
        | none =>
          rw [hs] at ih
          exact ⟨fun _ => ih.mp rfl, fun _ => rfl⟩
        | some n =>
          rw [hs] at ih
          constructor
          · intro hx
            exact absurd hx (by simp)
          · intro ha
            exact absurd (ih.mpr ha) (by simp)

theorem tarFieldScan_some_of_not_triggered (field : List Nat)
    (h : binTriggered field = false) :
    tarFieldScan field = some (field.takeWhile (fun b => b ≠ 0)).length := by
  induction field with
  | nil => simp [tarFieldScan]
  | cons b rest ih =>
    unfold binTriggered at h
    by_cases hb : (b >>> 7) &&& 1 = 1
    · exfalso
      rw [List.takeWhile_cons, if_pos (decide_eq_true (highbit_ne_zero b hb)),
        List.any_cons, decide_eq_true hb, Bool.true_or] at h
      exact absurd h (by simp)
    · unfold tarFieldScan
      rw [if_neg hb]
      by_cases hz : b = 0
      · subst hz
        rw [if_pos rfl, List.takeWhile_cons, if_neg (by simp)]
        rfl
      · rw [if_neg hz]
        rw [List.takeWhile_cons, if_pos (decide_eq_true hz), List.any_cons,
          decide_eq_false hb, Bool.false_or] at h
        have hrec := ih (by unfold binTriggered; exact h)
        rw [hrec, List.takeWhile_cons, if_pos (decide_eq_true hz), List.length_cons]

/-- The field of the C6 counterexample: leading byte `0x31` (`'1'`, high bit
clear), second byte `0x80` (high bit set), NUL at index 2, last byte 7. -/
def mixedField : List Nat := [0x31, 0x80, 0, 0, 0, 0, 0, 0, 0, 0, 0, 7]

/-- C6 counterexample: this 12-byte field is decoded as a big-endian
binary integer (its low 8 bytes give 7) although its *leading* byte has the
high bit clear — the binary path is triggered by the second byte.  Under the
claim's reading the field would instead be NUL-terminated octal, which
parses to 1, not 7. -/
theorem tar_field_leading_byte_not_required :
    tarEntry mixedField true = .ok (.vInt 7) ∧
    (mixedField.headD 0 >>> 7) &&& 1 = 0 ∧
    jsParseIntOct (utf8Decode (mixedField.takeWhile (fun b => b ≠ 0))) = some 1 := by
  refine ⟨by rfl, by decide, by rfl⟩

/-- C6 amended.  A Tar header field is decoded as a big-endian binary
integer from its low 8 bytes if and only if some byte with its high bit set
occurs *before the first NUL byte* of the field (for the leading byte this
agrees with the claim; a high bit later among the pre-NUL bytes also
triggers it); in that case decoding fails with `UnsupportedFeature` exactly
when the field is narrower than 64 bits, and with the out-of-range error
exactly when the value exceeds `Number.MAX_SAFE_INTEGER`.  Otherwise the
field is the NUL-terminated string of its pre-NUL bytes, parsed as octal
(`parseInt(s, 8)`, `NaN` when no octal digit leads) when numeric. -/
theorem tar_field_decode_characterisation (field : List Nat) (isOctal : Bool) :
    (binTriggered field = true →
       tarEntry field isOctal =
         (if field.length * 8 < 64 then .error .unsupportedBinary
          else if readBE (field.drop (field.length - 8)) > 2 ^ 53 - 1 then .error .binaryTooLarge
          else .ok (.vInt (readBE (field.drop (field.length - 8)))))) ∧
    (binTriggered field = false →
       tarEntry field isOctal =
         (if (field.takeWhile (fun b => b ≠ 0)).length = 0 then .ok .vNull
          else if isOctal then
            (match jsParseIntOct (utf8Decode (field.take (field.takeWhile (fun b => b ≠ 0)).length)) with
             | some n => .ok (.vInt n)
             | none => .ok .vNan)
          else .ok (.vStr (utf8Decode (field.take (field.takeWhile (fun b => b ≠ 0)).length))))) := by
  constructor
  · intro ht
    unfold tarEntry
    rw [(tarFieldScan_none_iff field).mpr ht]
  · intro hf
    unfold tarEntry
    rw [tarFieldScan_some_of_not_triggered field hf]

theorem tar_field_decode_characterisation_witness :
    binTriggered mixedField = true ∧
    tarEntry mixedField true =
      (if mixedField.length * 8 < 64 then .error .unsupportedBinary
       else if readBE (mixedField.drop (mixedField.length - 8)) > 2 ^ 53 - 1 then
         .error .binaryTooLarge
       else .ok (.vInt (readBE (mixedField.drop (mixedField.length - 8))))) :=
  ⟨by decide, (tar_field_decode_characterisation mixedField true).1 (by decide)⟩

/-! ## Object-merge and PAX-key lemmas -/

theorem objGet_append (o₁ o₂ : Obj) (k : String) :
    objGet (o₁ ++ o₂) k = ((objGet o₂ k).orElse (fun _ => objGet o₁ k)) := by
  unfold objGet
  rw [List.reverse_append, List.find?_append]
  cases o₂.reverse.find? (fun p => p.1 == k) <;> simp

theorem objGet_none (o : Obj) (k : String) (h : ∀ p ∈ o, p.1 ≠ k) :
    objGet o k = none := by
  unfold objGet
  rw [List.find?_eq_none.mpr]
  · rfl
  · intro p hp
    simp only [beq_iff_eq]
    exact h p (List.mem_reverse.mp hp)

/-- Per-entry precedence: a key present in the spread-later object wins. -/
theorem objGet_append_right (o₁ o₂ : Obj) (k : String) (v : HVal)
    (h : objGet o₂ k = some v) : objGet (o₁ ++ o₂) k = some v := by
  rw [objGet_append, h]
  rfl

/-- A key absent from the spread-later object falls through. -/
theorem objGet_append_left (o₁ o₂ : Obj) (k : String)
    (h : objGet o₂ k = none) : objGet (o₁ ++ o₂) k = objGet o₁ k := by
  rw [objGet_append, h]
  rfl

theorem jsIndexOf_append (l₁ l₂ : List Char) (c : Char) (h : c ∉ l₁) :
    jsIndexOf (l₁ ++ c :: l₂) c = (l₁.length : Int) := by
  induction l₁ with
  | nil => simp [jsIndexOf]
  | cons a l₁ ih =>
    have ha : (a == c) = false := by
      simp only [beq_eq_false_iff_ne]
      intro he
      exact h (he ▸ List.mem_cons_self a l₁)
    have ih' := ih (fun hm => h (List.mem_cons_of_mem a hm))
    unfold jsIndexOf
    simp only [List.cons_append, ha, Bool.false_eq_true, if_false]
    rw [ih']
    rw [if_neg (by omega)]
    simp only [List.length_cons]
    omega

theorem jsSubstring_nat (s : List Char) (a b : Nat) (ha : a ≤ b) (hb : b ≤ s.length) :
    jsSubstring s (a : Int) (b : Int) = (s.take b).drop a := by
  simp only [jsSubstring]
  have h1 : min (max (a : Int) 0) (s.length : Int) = (a : Int) := by omega
  have h2 : min (max (b : Int) 0) (s.length : Int) = (b : Int) := by omega
  rw [h1, h2]
  have h3 : max (a : Int) (b : Int) = (b : Int) := by omega
  have h4 : min (a : Int) (b : Int) = (a : Int) := by omega
  rw [h3, h4, Int.toNat_natCast, Int.toNat_natCast]

theorem standard_name_not_space_key (key : List Char) :
    String.mk (' ' :: key) ∉ tarFieldSpec.map (fun p => p.1) := by
  intro hmem
  simp only [tarFieldSpec, List.map_cons, List.map_nil, List.mem_cons,
    List.not_mem_nil, or_false] at hmem
  rcases hmem with h|h|h|h|h|h|h|h|h|h|h|h|h|h|h|h <;>
    (have hd := congrArg String.data h; simp at hd)

/-- C10.  For a well-formed PAX record line `length key=value` (no space
in the length digits, no `'='` before the real separator), the key stored by
`_parsePaxEntries` is `line.substring(line.indexOf(' '), line.indexOf('='))`
— the separator space *included* — so every stored PAX key begins with a
space; no such key can equal a standard Tar header field name, and spreading
PAX pairs over a header therefore never changes any standard field. -/
theorem pax_key_space_guard :
    (∀ len key value : List Char,
       ' ' ∉ len → '=' ∉ len → '=' ∉ key →
       parsePaxLine (len ++ [' '] ++ key ++ ['='] ++ value) = (' ' :: key, value)) ∧
    (∀ key : List Char, String.mk (' ' :: key) ∉ tarFieldSpec.map (fun p => p.1)) ∧
    (∀ (h pax : Obj) (k : String),
       (∀ p ∈ pax, ∃ kr : List Char, p.1 = String.mk (' ' :: kr)) →
       k ∈ tarFieldSpec.map (fun p => p.1) →
       objGet (h ++ pax) k = objGet h k) := by
  refine ⟨?_, standard_name_not_space_key, ?_⟩
  · intro len key value h1 h2 h3
    have hline1 : len ++ [' '] ++ key ++ ['='] ++ value
        = len ++ ' ' :: (key ++ '=' :: value) := by simp
    have hline2 : len ++ [' '] ++ key ++ ['='] ++ value
        = (len ++ ' ' :: key) ++ '=' :: value := by simp
    have hline3 : len ++ [' '] ++ key ++ ['='] ++ value
        = (len ++ ' ' :: key ++ ['=']) ++ value := by simp
    have ha : jsIndexOf (len ++ [' '] ++ key ++ ['='] ++ value) ' ' = (len.length : Int) := by
      rw [hline1]; exact jsIndexOf_append len _ ' ' h1
    have hne : '=' ∉ (len ++ ' ' :: key) := by
      simp only [List.mem_append, List.mem_cons]
      push_neg
      exact ⟨h2, by decide, h3⟩
    have hb : jsIndexOf (len ++ [' '] ++ key ++ ['='] ++ value) '='
        = (((len ++ ' ' :: key).length : Nat) : Int) := by
      rw [hline2]; exact jsIndexOf_append _ _ '=' hne
    simp only [parsePaxLine]
    rw [ha, hb]
    have hkey : jsSubstring (len ++ [' '] ++ key ++ ['='] ++ value)
        (len.length : Int) (((len ++ ' ' :: key).length : Nat) : Int) = ' ' :: key := by
      rw [jsSubstring_nat _ len.length (len ++ ' ' :: key).length
        (by simp) (by rw [hline2]; simp)]
      rw [hline2, List.take_left, List.drop_left]
    have hcast : (((len ++ ' ' :: key).length : Nat) : Int) + 1
        = (((len ++ ' ' :: key ++ ['=']).length : Nat) : Int) := by
      simp
      omega
    have hval : jsSubstring (len ++ [' '] ++ key ++ ['='] ++ value)
        ((((len ++ ' ' :: key).length : Nat) : Int) + 1)
        (((len ++ [' '] ++ key ++ ['='] ++ value).length : Nat) : Int) = value := by
      rw [hcast, jsSubstring_nat _ (len ++ ' ' :: key ++ ['=']).length
        (len ++ [' '] ++ key ++ ['='] ++ value).length
        (by rw [hline3]; simp) (Nat.le_refl _)]
      rw [List.take_length, hline3, List.drop_left]
    rw [hkey, hval]
  · intro h pax k hkeys hk
    apply objGet_append_left
    apply objGet_none
    intro p hp hcontra
    obtain ⟨kr, hkr⟩ := hkeys p hp
    rw [hcontra] at hkr
    exact standard_name_not_space_key kr (hkr ▸ hk)

theorem pax_key_space_guard_witness :
    (' ' ∉ ['2', '5']) ∧ ('=' ∉ ['2', '5']) ∧ ('=' ∉ ['m', 't', 'i', 'm', 'e']) ∧
    parsePaxLine (['2', '5'] ++ [' '] ++ ['m', 't', 'i', 'm', 'e'] ++ ['='] ++ ['1', '2', '3'])
      = (' ' :: ['m', 't', 'i', 'm', 'e'], ['1', '2', '3']) :=
  ⟨by decide, by decide, by decide,
   pax_key_space_guard.1 ['2', '5'] ['m', 't', 'i', 'm', 'e'] ['1', '2', '3']
     (by decide) (by decide) (by decide)⟩

theorem tarParseFields_keys (spec : List (String × Nat × Bool)) :
    ∀ (b : List Nat) (fields : List (String × HVal)),
      tarParseFields b spec = .ok fields →
      fields.map (fun p => p.1) = spec.map (fun p => p.1) := by
  induction spec with
  | nil =>
    intro b fields h
    unfold tarParseFields at h
    simp only [Except.ok.injEq] at h
    subst h
    rfl
  | cons s rest ih =>
    intro b fields h
    obtain ⟨k, sz, oct⟩ := s
    unfold tarParseFields at h
    cases hte : tarEntry (b.take sz) oct with
    | error e => rw [hte] at h; exact absurd h (by simp)
    | ok v =>
      rw [hte] at h
      dsimp only at h
      cases hrec : tarParseFields (b.drop sz) rest with
      | error e => rw [hrec] at h; exact absurd h (by simp)
      | ok vs =>
        rw [hrec] at h
        simp only [Except.ok.injEq] at h
        subst h
        simp only [List.map_cons]
        rw [ih (b.drop sz) vs hrec]

theorem tarParseHeader_shape (g : Obj) (i : List Nat) (h : Obj) (r : List Nat)
    (hp : tarParseHeader g i = .ok (some h, r)) :
    ∃ fields, tarParseFields (i.take 512) tarFieldSpec = .ok fields ∧ h = fields ++ g := by
  unfold tarParseHeader at hp
  by_cases h0 : i.length < 512
  · rw [if_pos h0] at hp; exact absurd hp (by simp)
  · rw [if_neg h0] at hp
    cases hf : tarParseFields (i.take 512) tarFieldSpec with
    | error e => rw [hf] at hp; exact absurd hp (by simp)
    | ok fields =>
      rw [hf] at hp
      dsimp only at hp
      by_cases hz : fields.all (fun p => p.2 == HVal.vNull)
      · rw [if_pos hz] at hp; exact absurd hp (by simp)
      · rw [if_neg hz] at hp
        simp only [Except.ok.injEq, Prod.mk.injEq, Option.some.injEq] at hp
        exact ⟨fields, rfl, hp.1.symm⟩

theorem header_inherits_global (g : Obj) (i : List Nat) (h : Obj) (r : List Nat) (k : String)
    (hp : tarParseHeader g i = .ok (some h, r))
    (hk : k ∉ tarFieldSpec.map (fun p => p.1)) :
    objGet h k = objGet g k := by
  obtain ⟨fields, hf, hh⟩ := tarParseHeader_shape g i h r hp
  subst hh
  have hnone : objGet fields k = none := by
    apply objGet_none
    intro p hp2 hcontra
    apply hk
    rw [← hcontra, ← tarParseFields_keys tarFieldSpec (i.take 512) fields hf]
    exact List.mem_map_of_mem (fun p => p.1) hp2
  rw [objGet_append]
  cases hg : objGet g k <;> simp [hnone]

/-- C7.  PAX scoping, as the worker implements it:
(a) for a `g` record the worker sets the global header to the parsed PAX
pairs and spreads them over the immediately following header (which is
itself parsed under the new global header, so later headers inherit the
pairs too);
(b) for an `x` record the pairs are spread only over the immediately
following header and the global header is left unchanged;
(c) an ordinary record leaves the global header unchanged;
(d) every header parsed under a global header carries the global value on
every non-standard (PAX) key — so global pairs reach all subsequent headers;
(e) in a spread `{...h, ...pax}` a per-entry PAX value takes precedence;
(f) the emit phase emits the merged header unchanged, with the global
header the step computed. -/
theorem tar_pax_scoping :
    (∀ (g : Obj) (input : List Nat) (h : Obj) (rest : List Nat) (size : Nat)
       (pax : Obj) (rest2 : List Nat) (h2 : Obj) (rest3 : List Nat),
       tarParseHeader g input = .ok (some h, rest) →
       objGet h "typeflag" = some (.vStr ['g']) →
       tarSizeOf h = some size →
       tarParsePaxEntries size rest = .ok (pax, rest2) →
       tarParseHeader pax rest2 = .ok (some h2, rest3) →
       tarStep g input = Except.map some (tarEmitPhase (h2 ++ pax) pax rest3)) ∧
    (∀ (g : Obj) (input : List Nat) (h : Obj) (rest : List Nat) (size : Nat)
       (pax : Obj) (rest2 : List Nat) (h2 : Obj) (rest3 : List Nat),
       tarParseHeader g input = .ok (some h, rest) →
       objGet h "typeflag" = some (.vStr ['x']) →
       tarSizeOf h = some size →
       tarParsePaxEntries size rest = .ok (pax, rest2) →
       tarParseHeader g rest2 = .ok (some h2, rest3) →
       tarStep g input = Except.map some (tarEmitPhase (h2 ++ pax) g rest3)) ∧
    (∀ (g : Obj) (input : List Nat) (h : Obj) (rest : List Nat),
       tarParseHeader g input = .ok (some h, rest) →
       ¬(objGet h "typeflag" = some (.vStr ['g']) ∨
         objGet h "typeflag" = some (.vStr ['x'])) →
       tarStep g input = Except.map some (tarEmitPhase h g rest)) ∧
    (∀ (g : Obj) (i : List Nat) (h : Obj) (r : List Nat) (k : String),
       tarParseHeader g i = .ok (some h, r) →
       k ∉ tarFieldSpec.map (fun p => p.1) →
       objGet h k = objGet g k) ∧
    (∀ (base pax : Obj) (k : String) (v : HVal),
       objGet pax k = some v → objGet (base ++ pax) k = some v) ∧
    (∀ (h g : Obj) (input : List Nat) (ev : TarEvent) (g' : Obj) (rest : List Nat),
       tarEmitPhase h g input = .ok (ev, g', rest) →
       g' = g ∧ ∃ strm, ev = .entry h strm) := by
  refine ⟨?_, ?_, ?_, header_inherits_global, objGet_append_right, ?_⟩
  · intro g input h rest size pax rest2 h2 rest3 hparse hflag hsz hpax hph2
    unfold tarStep
    rw [hparse]
    dsimp only
    rw [if_pos (Or.inl hflag), hsz]
    dsimp only
    rw [hpax]
    dsimp only
    rw [if_pos hflag, hph2]
    dsimp only
    cases tarEmitPhase (h2 ++ pax) pax rest3 <;> rfl
  · intro g input h rest size pax rest2 h2 rest3 hparse hflag hsz hpax hph2
    unfold tarStep
    rw [hparse]
    dsimp only
    rw [if_pos (Or.inr hflag), hsz]
    dsimp only
    rw [hpax]
    dsimp only
    rw [if_neg (by rw [hflag]; simp), hph2]
    dsimp only
    cases tarEmitPhase (h2 ++ pax) g rest3 <;> rfl
  · intro g input h rest hparse hflag
    unfold tarStep
    rw [hparse]
    dsimp only
    rw [if_neg hflag]
    cases tarEmitPhase h g rest <;> rfl
  · intro h g input ev g' rest hemit
    unfold tarEmitPhase at hemit
    by_cases h0 : isNullish (objGet h "linkname")
    · rw [if_pos h0] at hemit
      cases hs : tarSizeOf h with
      | none => rw [hs] at hemit; exact absurd hemit (by simp)
      | some size =>
        rw [hs] at hemit
        dsimp only at hemit
        cases hp : tarPipeFileStream size [alignUp512 size] input with
        | error e => rw [hp] at hemit; exact absurd hemit (by simp)
        | ok res =>
          obtain ⟨ps, e, r⟩ := res
          rw [hp] at hemit
          simp only [Except.ok.injEq, Prod.mk.injEq] at hemit
          exact ⟨hemit.2.1.symm, some (ps, e), hemit.1.symm⟩
    · rw [if_neg h0] at hemit
      simp only [Except.ok.injEq, Prod.mk.injEq] at hemit
      exact ⟨hemit.2.1.symm, none, hemit.1.symm⟩

theorem tar_pax_scoping_witness :
    objGet [(" k", HVal.vStr ['v'])] " k" = some (.vStr ['v']) ∧
    objGet ([("name", HVal.vStr ['a'])] ++ [(" k", HVal.vStr ['v'])]) " k"
      = some (.vStr ['v']) :=
  ⟨by decide,
   tar_pax_scoping.2.2.2.2.1 [("name", HVal.vStr ['a'])] [(" k", HVal.vStr ['v'])]
     " k" (.vStr ['v']) (by decide)⟩


/-- The `localFileHeaderSignature` constant of the Zip decoder. -/
def localFileHeaderSignature : Nat := 0x504B0304

/-- The `centralDirectoryFileHeaderSignature` constant of the Zip decoder. -/
def centralDirectoryFileHeaderSignature : Nat := 0x504B0102

/-- Errors thrown by the record dispatch of `ZipExtractStream._worker`. -/
inductive ZipWorkerErr where
  /-- The `consume(4, undefined, true)` IO-timeout throw. -/
  | timeout
  /-- `'Invalid Zip archive signature (self extracting archives are not supported ...)'`. -/
  | invalidSignature
  /-- `'Zip file not streaming compatible or corrupted. Got signature: ...'`. -/
  | notStreamingCompatible
deriving Repr, DecidableEq

/-- Where the Zip worker goes after dispatching on a record's signature. -/
inductive ZipDispatch where
  /-- Central-directory signature: `log('end of zip'); return this.end()`. -/
  | endOfZip
  /-- Local-file-header signature: proceed to `_parseLocalFileHeader`, with
  the buffer state after the 4 signature bytes. -/
  | readHeader (b : CB)
deriving Repr, DecidableEq

/-- The record dispatch at the top of the `ZipExtractStream._worker` loop:
`consume(4, undefined, true)` (the throw-on-timeout variant), read the
signature big-endian; on the first record anything but the local-file-header
signature throws; on later records the central-directory signature ends the
decode, the local-file-header signature continues, and anything else throws.
`_worker` contains no `try/catch`, so each `.error` here is the worker's
terminal result (the async worker's rejection). -/
def zipSignatureStep (startOfFile : Bool) (b : CB) : Except ZipWorkerErr ZipDispatch :=
  match b.consume 4 with
  | none => .error .timeout
  | some (buffer, b') =>
    let signature := readBE buffer
    if startOfFile then
      if signature ≠ localFileHeaderSignature then .error .invalidSignature
      else .ok (.readHeader b')
    else if signature = centralDirectoryFileHeaderSignature then .ok .endOfZip
    else if signature = localFileHeaderSignature then .ok (.readHeader b')
    else .error .notStreamingCompatible

/-- C9 amended.  Fatal-condition propagation, as the code implements it:
in the Tar decoder every fatal condition — a stall timeout, an unsupported
binary field or an oversized binary value — arising in any phase of a worker
iteration (header parse, PAX body parse, the post-PAX header parse, or the
emit/body-copy phase) is the iteration's result (conjuncts 1–5), and any
iteration's error, at any depth of the loop, is the worker's terminal result
(conjuncts 6–7), nothing catching it on the way; in the Zip decoder the
record dispatch throws on a stall and on every bad signature — first record
not a local file header, later record neither local nor central — with the
central-directory signature ending the decode cleanly, and `_worker` has no
handler, so these throws are its terminal result (conjuncts 8–11).  The one
exception, which refutes the original claim: a stall timeout thrown inside
`_pipeFileStream`'s unknown-size loop is caught by its `try/catch` and only
logged, after which the decode just awaits the inflater's end promise
(conjunct 12; see the counterexample). -/
theorem fatal_error_propagation :
    (∀ (g : Obj) (input : List Nat) (e : TarErr),
       tarParseHeader g input = .error e → tarStep g input = .error e) ∧
    (∀ (g : Obj) (input : List Nat) (h : Obj) (rest : List Nat) (size : Nat) (e : TarErr),
       tarParseHeader g input = .ok (some h, rest) →
       (objGet h "typeflag" = some (.vStr ['g']) ∨
        objGet h "typeflag" = some (.vStr ['x'])) →
       tarSizeOf h = some size →
       tarParsePaxEntries size rest = .error e →
       tarStep g input = .error e) ∧
    (∀ (g : Obj) (input : List Nat) (h : Obj) (rest : List Nat) (size : Nat)
       (pax : Obj) (rest2 : List Nat) (e : TarErr),
       tarParseHeader g input = .ok (some h, rest) →
       (objGet h "typeflag" = some (.vStr ['g']) ∨
        objGet h "typeflag" = some (.vStr ['x'])) →
       tarSizeOf h = some size →
       tarParsePaxEntries size rest = .ok (pax, rest2) →
       tarParseHeader (if objGet h "typeflag" = some (.vStr ['g']) then pax else g) rest2
         = .error e →
       tarStep g input = .error e) ∧
    (∀ (g : Obj) (input : List Nat) (h : Obj) (rest : List Nat) (size : Nat)
       (pax : Obj) (rest2 : List Nat) (h2 : Obj) (rest3 : List Nat) (e : TarErr),
       tarParseHeader g input = .ok (some h, rest) →
       (objGet h "typeflag" = some (.vStr ['g']) ∨
        objGet h "typeflag" = some (.vStr ['x'])) →
       tarSizeOf h = some size →
       tarParsePaxEntries size rest = .ok (pax, rest2) →
       tarParseHeader (if objGet h "typeflag" = some (.vStr ['g']) then pax else g) rest2
         = .ok (some h2, rest3) →
       tarEmitPhase (h2 ++ pax)
         (if objGet h "typeflag" = some (.vStr ['g']) then pax else g) rest3 = .error e →
       tarStep g input = .error e) ∧
    (∀ (g : Obj) (input : List Nat) (h : Obj) (rest : List Nat) (e : TarErr),
       tarParseHeader g input = .ok (some h, rest) →
       ¬(objGet h "typeflag" = some (.vStr ['g']) ∨
         objGet h "typeflag" = some (.vStr ['x'])) →
       tarEmitPhase h g rest = .error e →
       tarStep g input = .error e) ∧
    (∀ (g : Obj) (input : List Nat) (e : TarErr),
       tarStep g input = .error e → tarWorkerGo g input = .error e) ∧
    (∀ (g : Obj) (input : List Nat) (ev : TarEvent) (g' : Obj) (rest : List Nat) (e : TarErr),
       tarStep g input = .ok (some (ev, g', rest)) →
       tarWorkerGo g' rest = .error e →
       tarWorkerGo g input = .error e) ∧
    (∀ (s : Bool) (b : CB),
       b.consume 4 = none → zipSignatureStep s b = .error .timeout) ∧
    (∀ (b : CB) (buffer : List Nat) (b' : CB),
       b.consume 4 = some (buffer, b') →
       readBE buffer ≠ localFileHeaderSignature →
       zipSignatureStep true b = .error .invalidSignature) ∧
    (∀ (b : CB) (buffer : List Nat) (b' : CB),
       b.consume 4 = some (buffer, b') →
       readBE buffer ≠ localFileHeaderSignature →
       readBE buffer ≠ centralDirectoryFileHeaderSignature →
       zipSignatureStep false b = .error .notStreamingCompatible) ∧
    (∀ (b : CB) (buffer : List Nat) (b' : CB),
       b.consume 4 = some (buffer, b') →
       readBE buffer = centralDirectoryFileHeaderSignature →
       zipSignatureStep false b = .ok .endOfZip) ∧
    (∀ (L : Nat) (sched : List (List Nat)),
       zipUnknownLoop L 0 sched = .error .timeout →
       zipPipeFileStream 0 L sched =
         { outcome := if inflateEnded L (chunksLen sched) then
             .finished (inflateBW L (chunksLen sched)) else .hangs
           fed := sched
           gaveBack := none }) := by
  refine ⟨?_, ?_, ?_, ?_, ?_, ?_, ?_, ?_, ?_, ?_, ?_, ?_⟩
  · intro g input e hp
    unfold tarStep
    rw [hp]
  · intro g input h rest size e hparse hflag hsz hpax
    unfold tarStep
    rw [hparse]
    dsimp only
    rw [if_pos hflag, hsz]
    dsimp only
    rw [hpax]
  · intro g input h rest size pax rest2 e hparse hflag hsz hpax hph
    unfold tarStep
    rw [hparse]
    dsimp only
    rw [if_pos hflag, hsz]
    dsimp only
    rw [hpax]
    dsimp only
    rw [hph]
  · intro g input h rest size pax rest2 h2 rest3 e hparse hflag hsz hpax hph hemit
    unfold tarStep
    rw [hparse]
    dsimp only
    rw [if_pos hflag, hsz]
    dsimp only
    rw [hpax]
    dsimp only
    rw [hph]
    dsimp only
    rw [hemit]
  · intro g input h rest e hparse hflag hemit
    unfold tarStep
    rw [hparse]
    dsimp only
    rw [if_neg hflag, hemit]
  · intro g input e hstep2
    rw [tarWorkerGo.eq_def]
    split
    · rename_i e2 heq
      rw [hstep2] at heq
      simp only [Except.error.injEq] at heq
      rw [heq]
    · rename_i heq
      rw [hstep2] at heq
      exact absurd heq (by simp)
    · rename_i ev g' rest heq
      rw [hstep2] at heq
      exact absurd heq (by simp)
  · intro g input ev g' rest e hstep2 hw
    rw [tarWorkerGo.eq_def]
    split
    · rename_i e2 heq
      rw [hstep2] at heq
      exact absurd heq (by simp)
    · rename_i heq
      rw [hstep2] at heq
      exact absurd heq (by simp)
    · rename_i ev2 g2 rest2 heq
      rw [hstep2] at heq
      simp only [Except.ok.injEq, Option.some.injEq, Prod.mk.injEq] at heq
      obtain ⟨he, hg, hr⟩ := heq
      subst he; subst hg; subst hr
      rw [hw]
  · intro s b hc
    unfold zipSignatureStep
    rw [hc]
  · intro b buffer b' hc hsig
    unfold zipSignatureStep
    rw [hc]
    dsimp only
    rw [if_pos rfl, if_pos hsig]
  · intro b buffer b' hc hsig hcen
    unfold zipSignatureStep
    rw [hc]
    dsimp only
    rw [if_neg (by simp), if_neg hcen, if_neg hsig]
  · intro b buffer b' hc hcen
    unfold zipSignatureStep
    rw [hc]
    dsimp only
    rw [if_neg (by simp), if_pos hcen]
  · intro L sched hloop
    unfold zipPipeFileStream
    rw [if_pos rfl, hloop]

/-- The buffer state for the C9 witness: one 4-byte chunk of zeros, which is
not a valid Zip signature. -/
def cbZeroSig : CB := ⟨[[0, 0, 0, 0]], 4⟩

theorem fatal_error_propagation_witness :
    tarParseHeader [] [] = .error .timeout ∧
    tarStep [] [] = .error .timeout ∧
    tarWorkerGo [] [] = .error .timeout ∧
    cbZeroSig.consume 4 = some ([0, 0, 0, 0], cbEmpty) ∧
    readBE [0, 0, 0, 0] ≠ localFileHeaderSignature ∧
    zipSignatureStep true cbZeroSig = .error .invalidSignature :=
  ⟨rfl,
   fatal_error_propagation.1 [] [] .timeout rfl,
   fatal_error_propagation.2.2.2.2.2.1 [] [] .timeout
     (fatal_error_propagation.1 [] [] .timeout rfl),
   rfl,
   by decide,
   fatal_error_propagation.2.2.2.2.2.2.2.2.1 cbZeroSig [0, 0, 0, 0] cbEmpty rfl (by decide)⟩
